import Mathlib

/-!
Verification of the card ordering / relationship-grouping engine of the
jira sprint-planning ticket printer.

The definitions below are a shallow embedding of
`static/frontend/utils/cardSorting.ts` (simple field sort, linked-issue
graph grouping, rule chaining) and of the AI merge layer
(`aiSorting` module: `applyAISorting`, `applyNaturalLanguageLinks`,
`detectRelationshipsLocally`).

Modelling conventions:
* A record (`TicketRow`) is an ordered association list from field name to a
  string value; an absent binding models a `null`/`undefined`/missing field
  (the code treats those identically in every comparison via `== null`).
  Scalar numbers are represented by their string form, which is what the
  code compares after its `String(...)` coercions.
* `RegExp` patterns are modelled as extraction functions
  `String → List String` (the result of `str.match(new RegExp(p, 'g'))`);
  the concrete pattern `/[A-Z]+-\d+/g` used by the local AI fallback and by
  the default configs is implemented as `ticketPatternMatches`.
* `localeCompare(a, b)` (no options, ICU default collation) is modelled as a
  two-pass comparison: a case-insensitive primary pass over the code points,
  then a lowercase-before-uppercase tiebreak pass.  Digit runs are compared
  character by character, exactly as in the default collation.
* `localeCompare(a, b, {numeric: true, sensitivity: 'base'})` is modelled as
  natural-sort comparison: digit runs compare as numbers, other characters
  case-insensitively, and the comparison can return `.eq` for strings that
  differ only in case (sensitivity 'base').
* `Array.prototype.sort` (stable since ES2019) with a comparator is modelled
  as a stable insertion sort `sortCmp`; all comparators used by the code are
  total preorders, for which every stable comparison sort agrees.
* `parseFloat` is modelled exactly: optional whitespace and sign, a run of
  integer digits, an optional fraction, yielding a scaled integer; trailing
  garbage is ignored and a missing mantissa is `NaN` (`none`).  (Exponents
  and `Infinity` are not modelled; no configuration in the repository
  produces them.)
* Recursive DFS is modelled with explicit fuel `graph.length + 1`.  A call
  either returns immediately (visited / absent key) or marks a fresh graph
  key visited before recursing, so productive nesting depth is bounded by
  the number of distinct graph keys and this fuel is never exhausted.
-/

/-! ### Orderings, comparators and the stable sort -/

def cmpNat (a b : Nat) : Ordering :=
  if a < b then .lt else if a = b then .eq else .gt

def cmpList (c : α → α → Ordering) : List α → List α → Ordering
  | [], [] => .eq
  | [], _ :: _ => .lt
  | _ :: _, [] => .gt
  | a :: as, b :: bs =>
    match c a b with
    | .eq => cmpList c as bs
    | o => o

/-- Stable insertion of `x` after every element that strictly precedes it. -/
def insertCmp (cmp : α → α → Ordering) (x : α) : List α → List α
  | [] => [x]
  | y :: ys => if cmp y x = .lt then y :: insertCmp cmp x ys else x :: y :: ys

/-- Stable comparison sort, the model of `Array.prototype.sort(comparator)`. -/
def sortCmp (cmp : α → α → Ordering) : List α → List α
  | [] => []
  | x :: xs => insertCmp cmp x (sortCmp cmp xs)

def digitsVal (ds : List Char) : Nat :=
  ds.foldl (fun n c => 10 * n + (c.toNat - 48)) 0

def pow10 : Nat → Int
  | 0 => 1
  | n + 1 => 10 * pow10 n

/-- Model of JavaScript `parseFloat(String(v))`: `none` is `NaN`; a parsed
decimal is represented exactly as a scaled integer `(m, e)` with value
`m / 10^e` (the comparisons below cross-multiply, so no rounding occurs —
double-rounding collisions beyond 17 significant digits are not modelled). -/
def parseFloat (s : String) : Option (Int × Nat) :=
  let cs := s.data.dropWhile (fun c => c.isWhitespace)
  let p : Int × List Char :=
    match cs with
    | '-' :: r => (-1, r)
    | '+' :: r => (1, r)
    | r => (1, r)
  let ip := p.2.takeWhile (fun c => c.isDigit)
  let rest := p.2.dropWhile (fun c => c.isDigit)
  let fp :=
    match rest with
    | '.' :: r => r.takeWhile (fun c => c.isDigit)
    | _ => []
  if ip = [] ∧ fp = [] then none
  else some (p.1 * (digitsVal (ip ++ fp) : Int), fp.length)

def cmpInt (a b : Int) : Ordering :=
  if a < b then .lt else if a = b then .eq else .gt

/-- Comparison of two parsed numbers (`aNum - bNum` in the code). -/
def numCompare (x y : Int × Nat) : Ordering :=
  cmpInt (x.1 * pow10 y.2) (y.1 * pow10 x.2)

/-- Collation tokens for numeric-aware ("natural") comparison (structural
fuel recursion, fuel = character count: every step consumes at least one
character, so the fuel is never exhausted): a digit run
becomes one numeric token of class 48, any other character one token keyed by
its lowercase code point.  (Digits never occur as character tokens, so class
48 is unambiguous; symbols sort below numbers, numbers below letters, exactly
as in ICU numeric collation.) -/
def naturalTokensF : Nat → List Char → List (Nat × Nat)
  | 0, _ => []
  | _, [] => []
  | fuel + 1, c :: cs =>
    if c.isDigit then
      (48, digitsVal ((c :: cs).takeWhile (fun d => d.isDigit)))
        :: naturalTokensF fuel ((c :: cs).dropWhile (fun d => d.isDigit))
    else
      (c.toLower.toNat, 0) :: naturalTokensF fuel cs

def naturalTokens (l : List Char) : List (Nat × Nat) :=
  naturalTokensF l.length l

def naturalKey (s : String) : List Nat :=
  (naturalTokens s.data).foldr (fun t acc => t.1 :: t.2 :: acc) []

/-- Model of `a.localeCompare(b, undefined, {numeric: true, sensitivity:
'base'})`. -/
def naturalCmp (a b : String) : Ordering :=
  cmpList cmpNat (naturalKey a) (naturalKey b)

/-- Two-pass collation key for `a.localeCompare(b)` with no options: shifted
case-insensitive code points, a separator, then case weights (lowercase
before uppercase, ICU default tertiary order). -/
def basicKey (s : String) : List Nat :=
  s.data.map (fun c => c.toLower.toNat + 1)
    ++ 0 :: s.data.map (fun c => if c.isLower then 0 else 1)

/-- Model of plain `a.localeCompare(b)` (ICU default collation). -/
def basicCmp (a b : String) : Ordering :=
  cmpList cmpNat (basicKey a) (basicKey b)

/-! ### Data model (`types/index.ts`) -/

/-- `TicketRow`: an open record; a missing binding is a `null`/`undefined`
field. -/
def TicketRow := List (String × String)
deriving DecidableEq, Inhabited

/-- `row[field]`, with `none` for `null`/`undefined`/absent. -/
def getField (row : TicketRow) (field : String) : Option String :=
  (List.find? (fun p => p.1 == field) row).map (fun p => p.2)

inductive SortDirection
  | asc
  | desc
deriving DecidableEq, Repr

structure SimpleSortConfig where
  field : String
  direction : SortDirection
  numeric : Bool

structure LinkedIssueGroupConfig where
  keyField : String
  linkedIssuesField : String
  issueKeyPattern : String → List String
  sortWithinGroups : Option SimpleSortConfig := none

structure SortedCardResult where
  row : TicketRow
  originalIndex : Nat
  groupId : Option String := none
  groupSize : Option Nat := none
  aiGroupId : Option String := none
  aiSimilarity : Option Int := none
deriving DecidableEq

/-- The `(row, originalIndex)` payload of a result: the part that identifies
which input record an output entry carries. -/
def payload (r : SortedCardResult) : TicketRow × Nat :=
  (r.row, r.originalIndex)

/-! ### `extractIssueKeys` and `applySortSimple` (`cardSorting.ts`) -/

/-- `extractIssueKeys(value, pattern)`. -/
def extractIssueKeys (value : Option String) (pattern : String → List String) :
    List String :=
  match value with
  | none => []
  | some s => pattern s

/-- The comparator of `applySortSimple`: nulls last before any direction
handling, then numeric comparison with plain-string fallback, or natural
string comparison, with `desc` negating the result. -/
def compareVals (config : SimpleSortConfig) (aVal bVal : Option String) :
    Ordering :=
  match aVal, bVal with
  | none, none => .eq
  | none, some _ => .gt
  | some _, none => .lt
  | some a, some b =>
    let comparison :=
      if config.numeric then
        match parseFloat a, parseFloat b with
        | some x, some y => numCompare x y
        | _, _ => basicCmp a b
      else naturalCmp a b
    match config.direction with
    | .asc => comparison
    | .desc => comparison.swap

def simpleCmp (config : SimpleSortConfig) (a b : SortedCardResult) : Ordering :=
  compareVals config (getField a.row config.field) (getField b.row config.field)

/-- `applySortSimple(results, config)`. -/
def applySortSimple (results : List SortedCardResult)
    (config : SimpleSortConfig) : List SortedCardResult :=
  sortCmp (simpleCmp config) results

/-! ### Linked-issue graph grouping (`applySortLinkedIssues`) -/

structure IssueGraphNode where
  issueKey : String
  row : TicketRow
  originalIndex : Nat
  linkedKeys : List String
deriving DecidableEq

/-- `Map.get`, the first (and for nodup keys only) binding of `k`. -/
def mapGet (m : List (String × α)) (k : String) : Option α :=
  (List.find? (fun p => p.1 == k) m).map (fun p => p.2)

/-- `Map.set`: update an existing binding in place, else append. -/
def mapSet (m : List (String × α)) (k : String) (v : α) : List (String × α) :=
  match m with
  | [] => [(k, v)]
  | (k', v') :: rest =>
    if k' = k then (k, v) :: rest else (k', v') :: mapSet rest k v

/-- The first identifier extracted from the key field, the record's primary
key (`primaryKeys[0]`); `none` when the key field yields no match. -/
def primaryKeyOf (config : LinkedIssueGroupConfig) (row : TicketRow) :
    Option String :=
  (extractIssueKeys (getField row config.keyField) config.issueKeyPattern).head?

def linkedKeysOf (config : LinkedIssueGroupConfig) (row : TicketRow) :
    List String :=
  extractIssueKeys (getField row config.linkedIssuesField) config.issueKeyPattern

structure BuildState where
  graph : List (String × IssueGraphNode)
  inboundKeys : List String

/-- One step of the graph-building loop: skip keyless records, otherwise
store the node under its primary key (later records overwrite earlier ones)
and register every linked key as inbound-referenced. -/
def buildStep (config : LinkedIssueGroupConfig) (st : BuildState)
    (result : SortedCardResult) : BuildState :=
  match primaryKeyOf config result.row with
  | none => st
  | some pk =>
    let linked := linkedKeysOf config result.row
    { graph := mapSet st.graph pk
        ⟨pk, result.row, result.originalIndex, linked⟩
      inboundKeys := st.inboundKeys ++ linked }

def buildGraph (results : List SortedCardResult)
    (config : LinkedIssueGroupConfig) : BuildState :=
  results.foldl (buildStep config) ⟨[], []⟩

/-- Roots: graph keys with no entry in `inboundRefs`, in insertion order. -/
def rootKeys (st : BuildState) : List String :=
  (st.graph.filter (fun p => ¬ p.1 ∈ st.inboundKeys)).map (fun p => p.1)

structure TraverseState where
  visited : List String
  group : List SortedCardResult

/-- The result pushed for a node when the DFS first visits it (`groupSize`
is 0 until the group is complete). -/
def mkGroupEntry (node : IssueGraphNode) (groupRootKey : String) :
    SortedCardResult :=
  { row := node.row, originalIndex := node.originalIndex
    groupId := some groupRootKey, groupSize := some 0 }

/-- The recursive `dfs` of `applySortLinkedIssues`, with explicit fuel (see
the header comment: fuel `graph.length + 1` is never exhausted because each
productive nesting level marks a fresh graph key visited). -/
def dfs (graph : List (String × IssueGraphNode)) (groupRootKey : String) :
    Nat → String → TraverseState → TraverseState
  | 0, _, st => st
  | fuel + 1, key, st =>
    if key ∈ st.visited then st
    else
      match mapGet graph key with
      | none => st
      | some node =>
        (node.linkedKeys).foldl
          (fun s k => dfs graph groupRootKey fuel k s)
          { visited := key :: st.visited
            group := st.group ++ [mkGroupEntry node groupRootKey] }

/-- The comparator of the optional within-group sort: nulls last, then
natural string comparison (the `numeric` flag of the config is not
consulted by the code), then direction. -/
def withinGroupCmp (swg : SimpleSortConfig) (a b : SortedCardResult) :
    Ordering :=
  match getField a.row swg.field, getField b.row swg.field with
  | none, none => .eq
  | none, some _ => .gt
  | some _, none => .lt
  | some x, some y =>
    match swg.direction with
    | .asc => naturalCmp x y
    | .desc => (naturalCmp x y).swap

/-- Set `groupSize` on every member of a completed group, then apply the
optional within-group sort. -/
def finishGroup (config : LinkedIssueGroupConfig)
    (group : List SortedCardResult) : List SortedCardResult :=
  let sized := group.map (fun c => { c with groupSize := some group.length })
  match config.sortWithinGroups with
  | none => sized
  | some swg => sortCmp (withinGroupCmp swg) sized

structure GroupsState where
  visited : List String
  groups : List (List SortedCardResult)

/-- Run one DFS with a fresh group list and the shared visited set; keep the
group if it is non-empty. -/
def processKey (graph : List (String × IssueGraphNode))
    (config : LinkedIssueGroupConfig) (st : GroupsState) (key : String) :
    GroupsState :=
  let t := dfs graph key (graph.length + 1) key ⟨st.visited, []⟩
  if t.group.isEmpty then { st with visited := t.visited }
  else { visited := t.visited, groups := st.groups ++ [finishGroup config t.group] }

/-- Steps 2–3 of the traversal: DFS from every root, then from every still
unvisited graph key (pure cycles), in insertion order. -/
def allGroups (results : List SortedCardResult)
    (config : LinkedIssueGroupConfig) : GroupsState :=
  let st := buildGraph results config
  let afterRoots := (rootKeys st).foldl (processKey st.graph config) ⟨[], []⟩
  (st.graph.map (fun p => p.1)).foldl (processKey st.graph config) afterRoots

/-- Graph nodes never reached by any DFS (dead in practice: the cycle sweep
visits every remaining graph key). -/
def graphOrphans (st : BuildState) (gs : GroupsState) :
    List SortedCardResult :=
  (st.graph.filter (fun p => ¬ p.1 ∈ gs.visited)).map
    (fun p => { row := p.2.row, originalIndex := p.2.originalIndex })

/-- Records whose key field produced no identifier at all. -/
def noKeyOrphans (results : List SortedCardResult)
    (config : LinkedIssueGroupConfig) : List SortedCardResult :=
  (results.filter (fun r => primaryKeyOf config r.row = none)).map
    (fun r => { row := r.row, originalIndex := r.originalIndex })

/-- `String(a.row[config.keyField] || '')`: the raw key-field string, with
falsy values collapsing to the empty string. -/
def orphanKeyStr (config : LinkedIssueGroupConfig) (r : SortedCardResult) :
    String :=
  (getField r.row config.keyField).getD ""

/-- The orphan comparator: plain `localeCompare` on the raw key strings. -/
def orphanCmp (config : LinkedIssueGroupConfig) (a b : SortedCardResult) :
    Ordering :=
  basicCmp (orphanKeyStr config a) (orphanKeyStr config b)

/-- `applySortLinkedIssues(results, config)`. -/
def applySortLinkedIssues (results : List SortedCardResult)
    (config : LinkedIssueGroupConfig) : List SortedCardResult :=
  let st := buildGraph results config
  let gs := allGroups results config
  let orphans := graphOrphans st gs ++ noKeyOrphans results config
  gs.groups.flatten ++ sortCmp (orphanCmp config) orphans

/-! ### Rule chaining (`applySorting`) -/

/-- A sort rule as consumed by the rule loop: `invalid` models an entry
whose `type` tag and payload disagree, which the loop skips. -/
inductive SortRuleSpec
  | simple (config : SimpleSortConfig)
  | linkedIssues (config : LinkedIssueGroupConfig)
  | invalid

structure SortConfig where
  rules : List SortRuleSpec

def applyRule (results : List SortedCardResult) :
    SortRuleSpec → List SortedCardResult
  | .simple c => applySortSimple results c
  | .linkedIssues c => applySortLinkedIssues results c
  | .invalid => results

def initialResults (rows : List TicketRow) : List SortedCardResult :=
  rows.enum.map (fun p => { row := p.2, originalIndex := p.1 })

/-- `applySorting(rows, config)`. -/
def applySorting (rows : List TicketRow) (config : SortConfig) :
    List SortedCardResult :=
  if rows.isEmpty then []
  else
    let results := initialResults rows
    if config.rules.isEmpty then results
    else config.rules.foldl applyRule results

/-- The global match list of `/[A-Z]+-\\d+/g`, used by the default issue-key
configuration and by the local AI fallback.  For this pattern greedy scanning
is exact: shortening a letter run leaves a letter (never `-`) next, so the
regex engine's backtracking can never produce a match the greedy scan
misses, and a failed attempt anywhere inside a letter run fails at every
position of the run. -/
def isUpperAZ (c : Char) : Bool := 'A' ≤ c ∧ c ≤ 'Z'

def ticketScanF : Nat → List Char → List String
  | 0, _ => []
  | _, [] => []
  | fuel + 1, c :: cs =>
    if isUpperAZ c then
      match cs.dropWhile isUpperAZ with
      | '-' :: r =>
        if r.takeWhile Char.isDigit = [] then ticketScanF fuel (cs.dropWhile isUpperAZ)
        else
          String.mk ((c :: cs.takeWhile isUpperAZ) ++ '-' :: r.takeWhile Char.isDigit)
            :: ticketScanF fuel (r.dropWhile Char.isDigit)
      | _ => ticketScanF fuel (cs.dropWhile isUpperAZ)
    else ticketScanF fuel cs

def ticketScan (l : List Char) : List String :=
  ticketScanF l.length l

def ticketPatternMatches (s : String) : List String :=
  ticketScan s.data

/-! ### Laws of the comparators and the stable sort -/

theorem cmpNat_eq_iff {a b : Nat} : cmpNat a b = .eq ↔ a = b := by
  unfold cmpNat
  split_ifs with h1 h2 <;> simp_all <;> omega

theorem cmpNat_swap (a b : Nat) : (cmpNat a b).swap = cmpNat b a := by
  unfold cmpNat
  rcases Nat.lt_trichotomy a b with h | h | h
  · rw [if_pos h, if_neg (by omega), if_neg (by omega)]
    rfl
  · subst h
    rw [if_neg (by omega : ¬ a < a), if_pos rfl]
    rfl
  · rw [if_neg (by omega), if_neg (by omega), if_pos h]
    rfl

theorem cmpNat_swap' (a b : Nat) : cmpNat a b = (cmpNat b a).swap := by
  rw [← cmpNat_swap b a]

theorem cmpNat_lt_trans {a b c : Nat} (h1 : cmpNat a b = .lt)
    (h2 : cmpNat b c = .lt) : cmpNat a c = .lt := by
  unfold cmpNat at *
  split_ifs at * <;> simp_all <;> omega

theorem cmpList_eq_iff : ∀ {x y : List Nat}, cmpList cmpNat x y = .eq ↔ x = y
  | [], [] => by simp [cmpList]
  | [], _ :: _ => by simp [cmpList]
  | _ :: _, [] => by simp [cmpList]
  | a :: as, b :: bs => by
    simp only [cmpList]
    rcases h : cmpNat a b with _ | _ | _
    · have : ¬ a = b := fun hab => by simp [hab, cmpNat_eq_iff.mpr rfl] at h
      simp [this]
    · have hab : a = b := cmpNat_eq_iff.mp h
      simp [hab, cmpList_eq_iff]
    · have : ¬ a = b := fun hab => by simp [hab, cmpNat_eq_iff.mpr rfl] at h
      simp [this]

theorem cmpList_swap : ∀ (x y : List Nat),
    (cmpList cmpNat x y).swap = cmpList cmpNat y x
  | [], [] => rfl
  | [], _ :: _ => rfl
  | _ :: _, [] => rfl
  | a :: as, b :: bs => by
    simp only [cmpList]
    rw [cmpNat_swap' a b]
    rcases cmpNat b a with _ | _ | _
    · rfl
    · exact cmpList_swap as bs
    · rfl

theorem cmpList_lt_trans : ∀ {x y z : List Nat}, cmpList cmpNat x y = .lt →
    cmpList cmpNat y z = .lt → cmpList cmpNat x z = .lt
  | [], [], _ :: _, _, _ => rfl
  | [], _ :: _, _ :: _, _, _ => rfl
  | [], [], [], h, _ => h
  | [], _ :: _, [], _, h => by simp [cmpList] at h
  | _ :: _, [], _, h, _ => by simp [cmpList] at h
  | _ :: _, _ :: _, [], _, h => by simp [cmpList] at h
  | a :: as, b :: bs, c :: cs, h1, h2 => by
    simp only [cmpList] at *
    rcases hab : cmpNat a b with _ | _ | _ <;> rw [hab] at h1 <;>
      rcases hbc : cmpNat b c with _ | _ | _ <;> rw [hbc] at h2 <;>
        try simp_all
    · have hac : cmpNat a c = .lt := cmpNat_lt_trans hab hbc
      simp [hac]
    · have hbceq := cmpNat_eq_iff.mp hbc
      subst hbceq
      simp [hab]
    · have habeq := cmpNat_eq_iff.mp hab
      subst habeq
      simp [hbc]
    · have habeq := cmpNat_eq_iff.mp hab
      subst habeq
      rw [hbc]
      exact cmpList_lt_trans h1 h2

theorem cmpList_gt_iff {x y : List Nat} :
    cmpList cmpNat x y = .gt ↔ cmpList cmpNat y x = .lt := by
  rw [← cmpList_swap x y]
  rcases cmpList cmpNat x y with _ | _ | _ <;> simp [Ordering.swap]

theorem cmpList_le_trans {x y z : List Nat} (h1 : cmpList cmpNat x y ≠ .gt)
    (h2 : cmpList cmpNat y z ≠ .gt) : cmpList cmpNat x z ≠ .gt := by
  rcases hxy : cmpList cmpNat x y with _ | _ | _
  · rcases hyz : cmpList cmpNat y z with _ | _ | _
    · simp [cmpList_lt_trans hxy hyz]
    · have := cmpList_eq_iff.mp hyz
      subst this
      simp [hxy]
    · exact absurd hyz h2
  · have := cmpList_eq_iff.mp hxy
    subst this
    exact h2
  · exact absurd hxy h1

theorem insertCmp_perm (cmp : α → α → Ordering) (x : α) :
    ∀ l : List α, (insertCmp cmp x l).Perm (x :: l)
  | [] => List.Perm.refl _
  | y :: ys => by
    simp only [insertCmp]
    split_ifs with h
    · exact ((insertCmp_perm cmp x ys).cons y).trans (List.Perm.swap x y ys)
    · exact List.Perm.refl _

theorem sortCmp_perm (cmp : α → α → Ordering) :
    ∀ l : List α, (sortCmp cmp l).Perm l
  | [] => List.Perm.refl _
  | x :: xs =>
    (insertCmp_perm cmp x (sortCmp cmp xs)).trans ((sortCmp_perm cmp xs).cons x)

theorem insertCmp_pairwise (cmp : α → α → Ordering)
    (htot : ∀ a b, cmp a b = .gt → cmp b a = .lt)
    (htrans : ∀ a b c, cmp a b ≠ .gt → cmp b c ≠ .gt → cmp a c ≠ .gt) (x : α) :
    ∀ l : List α, l.Pairwise (fun a b => cmp a b ≠ .gt) →
      (insertCmp cmp x l).Pairwise (fun a b => cmp a b ≠ .gt)
  | [], _ => List.pairwise_singleton _ _
  | y :: ys, h => by
    rcases List.pairwise_cons.mp h with ⟨hy, hys⟩
    simp only [insertCmp]
    split_ifs with hlt
    · refine List.pairwise_cons.mpr ⟨?_, insertCmp_pairwise cmp htot htrans x ys hys⟩
      intro z hz
      rcases List.mem_cons.mp ((insertCmp_perm cmp x ys).mem_iff.mp hz) with hz | hz
      · subst hz
        simp [hlt]
      · exact hy z hz
    · have hxy : cmp x y ≠ .gt := fun hg => hlt (htot x y hg)
      refine List.pairwise_cons.mpr ⟨?_, h⟩
      intro z hz
      rcases List.mem_cons.mp hz with hz | hz
      · subst hz
        exact hxy
      · exact htrans x y z hxy (hy z hz)

theorem sortCmp_pairwise_of (cmp : α → α → Ordering)
    (htot : ∀ a b, cmp a b = .gt → cmp b a = .lt)
    (htrans : ∀ a b c, cmp a b ≠ .gt → cmp b c ≠ .gt → cmp a c ≠ .gt) :
    ∀ l : List α, (sortCmp cmp l).Pairwise (fun a b => cmp a b ≠ .gt)
  | [] => List.Pairwise.nil
  | x :: xs =>
    insertCmp_pairwise cmp htot htrans x (sortCmp cmp xs)
      (sortCmp_pairwise_of cmp htot htrans xs)

theorem insertCmp_pairwise_null (cmp : α → α → Ordering) (N : α → Prop)
    (h1 : ∀ a b, N a → ¬ N b → cmp a b = .gt)
    (h2 : ∀ a b, ¬ N a → N b → cmp a b = .lt) (x : α) :
    ∀ l : List α, l.Pairwise (fun a b => N a → N b) →
      (insertCmp cmp x l).Pairwise (fun a b => N a → N b)
  | [], _ => List.pairwise_singleton _ _
  | y :: ys, h => by
    rcases List.pairwise_cons.mp h with ⟨hy, hys⟩
    simp only [insertCmp]
    split_ifs with hlt
    · refine List.pairwise_cons.mpr ⟨?_, insertCmp_pairwise_null cmp N h1 h2 x ys hys⟩
      intro z hz hNy
      rcases List.mem_cons.mp ((insertCmp_perm cmp x ys).mem_iff.mp hz) with hz | hz
      · subst hz
        by_contra hNx
        rw [h1 y z hNy hNx] at hlt
        simp at hlt
      · exact hy z hz hNy
    · have hxy : N x → N y := by
        intro hNx
        by_contra hNy
        exact hlt (h2 y x hNy hNx)
      refine List.pairwise_cons.mpr ⟨?_, h⟩
      intro z hz hNx
      rcases List.mem_cons.mp hz with hz | hz
      · subst hz
        exact hxy hNx
      · exact hy z hz (hxy hNx)

theorem sortCmp_pairwise_null (cmp : α → α → Ordering) (N : α → Prop)
    (h1 : ∀ a b, N a → ¬ N b → cmp a b = .gt)
    (h2 : ∀ a b, ¬ N a → N b → cmp a b = .lt) :
    ∀ l : List α, (sortCmp cmp l).Pairwise (fun a b => N a → N b)
  | [] => List.Pairwise.nil
  | x :: xs =>
    insertCmp_pairwise_null cmp N h1 h2 x (sortCmp cmp xs)
      (sortCmp_pairwise_null cmp N h1 h2 xs)

theorem insertCmp_eq_cons (cmp : α → α → Ordering) (x : α) (l : List α)
    (h : ∀ y ∈ l.head?, cmp y x ≠ .lt) : insertCmp cmp x l = x :: l := by
  match l with
  | [] => rfl
  | y :: ys =>
    simp only [insertCmp]
    rw [if_neg (h y rfl)]

theorem sortCmp_eq_self (cmp : α → α → Ordering) :
    ∀ l : List α, (∀ a ∈ l, ∀ b ∈ l, cmp a b = .eq) → sortCmp cmp l = l
  | [], _ => rfl
  | x :: xs, h => by
    simp only [sortCmp]
    rw [sortCmp_eq_self cmp xs (fun a ha b hb =>
      h a (List.mem_cons_of_mem x ha) b (List.mem_cons_of_mem x hb))]
    refine insertCmp_eq_cons cmp x xs ?_
    intro y hy
    have hyx : y ∈ xs := by
      cases xs with
      | nil => simp at hy
      | cons z zs => simp_all
    rw [h y (List.mem_cons_of_mem x hyx) x (List.mem_cons_self x xs)]
    simp

/-! ### Invariants of the graph traversal -/

def dummyNode : IssueGraphNode := ⟨"", [], 0, []⟩

/-- The entry the DFS pushes when it first visits `k` (total version, used
to state invariants; the invariants carry the fact that `k` is bound). -/
def entryAt (graph : List (String × IssueGraphNode)) (root k : String) :
    SortedCardResult :=
  mkGroupEntry ((mapGet graph k).getD dummyNode) root

def nodePayloadAt (graph : List (String × IssueGraphNode)) (k : String) :
    TicketRow × Nat :=
  (((mapGet graph k).getD dummyNode).row,
    ((mapGet graph k).getD dummyNode).originalIndex)

/-- `st'` is reachable from `st` by DFS steps: some fresh graph keys `ks`
were marked visited (in that order) and exactly their entries were appended
to the group. -/
def ExtendsD (graph : List (String × IssueGraphNode)) (root : String)
    (st st' : TraverseState) : Prop :=
  ∃ ks : List String,
    st'.visited = ks.reverse ++ st.visited ∧
    st'.group = st.group ++ ks.map (entryAt graph root) ∧
    ks.Nodup ∧
    ∀ k ∈ ks, k ∉ st.visited ∧ (mapGet graph k).isSome

theorem extendsD_refl (graph : List (String × IssueGraphNode)) (root : String)
    (st : TraverseState) : ExtendsD graph root st st :=
  ⟨[], by simp, by simp, List.nodup_nil, by simp⟩

theorem extendsD_trans {graph : List (String × IssueGraphNode)} {root : String}
    {s1 s2 s3 : TraverseState} (h12 : ExtendsD graph root s1 s2)
    (h23 : ExtendsD graph root s2 s3) : ExtendsD graph root s1 s3 := by
  obtain ⟨ks1, hv1, hg1, hn1, hf1⟩ := h12
  obtain ⟨ks2, hv2, hg2, hn2, hf2⟩ := h23
  refine ⟨ks1 ++ ks2, ?_, ?_, ?_, ?_⟩
  · rw [hv2, hv1, List.reverse_append, List.append_assoc]
  · rw [hg2, hg1, List.map_append, List.append_assoc]
  · rw [List.nodup_append]
    refine ⟨hn1, hn2, ?_⟩
    intro k hk1 hk2
    have := (hf2 k hk2).1
    rw [hv1] at this
    exact this (by simp [hk1])
  · intro k hk
    rcases List.mem_append.mp hk with hk | hk
    · exact hf1 k hk
    · refine ⟨?_, (hf2 k hk).2⟩
      intro hmem
      have := (hf2 k hk).1
      rw [hv1] at this
      exact this (by simp [hmem])

theorem foldl_dfs_extendsD (graph : List (String × IssueGraphNode))
    (root : String) (fuel : Nat)
    (ih : ∀ key st, ExtendsD graph root st (dfs graph root fuel key st)) :
    ∀ (keys : List String) (st : TraverseState),
      ExtendsD graph root st
        (keys.foldl (fun s k => dfs graph root fuel k s) st)
  | [], st => extendsD_refl graph root st
  | k :: ks, st => by
    rw [List.foldl_cons]
    exact extendsD_trans (ih k st) (foldl_dfs_extendsD graph root fuel ih ks _)

theorem dfs_extendsD (graph : List (String × IssueGraphNode)) (root : String) :
    ∀ (fuel : Nat) (key : String) (st : TraverseState),
      ExtendsD graph root st (dfs graph root fuel key st) := by
  intro fuel
  induction fuel with
  | zero => intro key st; exact extendsD_refl graph root st
  | succ fuel ih =>
    intro key st
    rw [dfs]
    split_ifs with hmem
    · exact extendsD_refl graph root st
    · rcases hget : mapGet graph key with _ | node
      · exact extendsD_refl graph root st
      · refine extendsD_trans ?_
          (foldl_dfs_extendsD graph root fuel ih node.linkedKeys
            { visited := key :: st.visited
              group := st.group ++ [mkGroupEntry node root] })
      
        exact ⟨[key], by simp, by simp [entryAt, hget], List.nodup_singleton key,
          by simp [hmem, hget]⟩

theorem extendsD_visited_sub {graph : List (String × IssueGraphNode)}
    {root : String} {st st' : TraverseState} (h : ExtendsD graph root st st') :
    st.visited ⊆ st'.visited := by
  obtain ⟨ks, hv, _, _, _⟩ := h
  rw [hv]
  exact fun a ha => List.mem_append.mpr (Or.inr ha)

/-! ### Association-list (JS `Map`) lemmas -/

theorem mapGet_cons (k' : String) (v' : α) (m : List (String × α)) (k : String) :
    mapGet ((k', v') :: m) k = if k' = k then some v' else mapGet m k := by
  simp only [mapGet, List.find?]
  split_ifs with h
  · simp [h]
  · rw [show (k' == k) = false by simp [h]]

theorem mapGet_mapSet_self (m : List (String × α)) (k : String) (v : α) :
    mapGet (mapSet m k v) k = some v := by
  induction m with
  | nil => simp [mapSet, mapGet, List.find?]
  | cons p rest ih =>
    simp only [mapSet]
    split_ifs with h
    · simp [mapGet_cons]
    · rw [mapGet_cons, if_neg h, ih]

theorem mapGet_mapSet_ne (m : List (String × α)) (k k' : String) (v : α)
    (h : k' ≠ k) : mapGet (mapSet m k v) k' = mapGet m k' := by
  induction m with
  | nil =>
    simp [mapSet, mapGet, List.find?,
      show (k == k') = false from beq_eq_false_iff_ne.mpr (fun hh => h hh.symm)]
  | cons p rest ih =>
    obtain ⟨pk, pv⟩ := p
    simp only [mapSet]
    split_ifs with hk
    · subst hk
      rw [mapGet_cons, if_neg (fun hh => h hh.symm), mapGet_cons,
        if_neg (fun hh => h hh.symm)]
    · rw [mapGet_cons, mapGet_cons, ih]

theorem mapSet_keys_of_mem (m : List (String × α)) (k : String) (v : α)
    (h : k ∈ m.map (fun p => p.1)) :
    (mapSet m k v).map (fun p => p.1) = m.map (fun p => p.1) := by
  induction m with
  | nil => simp at h
  | cons p rest ih =>
    simp only [mapSet]
    split_ifs with hk
    · simp [hk]
    · simp only [List.map_cons]
      rw [ih]
      simp only [List.map_cons, List.mem_cons] at h
      rcases h with h | h
      · exact absurd h.symm hk
      · exact h

theorem mapSet_keys_of_not_mem (m : List (String × α)) (k : String) (v : α)
    (h : ¬ k ∈ m.map (fun p => p.1)) :
    (mapSet m k v).map (fun p => p.1) = m.map (fun p => p.1) ++ [k] := by
  induction m with
  | nil => simp [mapSet]
  | cons p rest ih =>
    simp only [List.map_cons, List.mem_cons] at h
    push_neg at h
    simp only [mapSet]
    rw [if_neg (fun hh => h.1 hh.symm)]
    simp only [List.map_cons, List.cons_append, List.cons.injEq, true_and]
    exact ih h.2

theorem mapSet_keys_nodup (m : List (String × α)) (k : String) (v : α)
    (h : (m.map (fun p => p.1)).Nodup) :
    ((mapSet m k v).map (fun p => p.1)).Nodup := by
  by_cases hk : k ∈ m.map (fun p => p.1)
  · rw [mapSet_keys_of_mem m k v hk]
    exact h
  · rw [mapSet_keys_of_not_mem m k v hk]
    simp [List.nodup_append, h, hk]

theorem mapGet_isSome_iff (m : List (String × α)) (k : String) :
    (mapGet m k).isSome ↔ k ∈ m.map (fun p => p.1) := by
  induction m with
  | nil => simp [mapGet, List.find?]
  | cons p rest ih =>
    rw [mapGet_cons]
    split_ifs with h
    · simp [h]
    · simp only [List.map_cons, List.mem_cons]
      rw [ih]
      constructor
      · exact fun hh => Or.inr hh
      · rintro (hh | hh)
        · exact absurd hh.symm h
        · exact hh

theorem mapGet_of_mem_of_nodup (m : List (String × α)) (k : String) (v : α)
    (hmem : (k, v) ∈ m) (hnd : (m.map (fun p => p.1)).Nodup) :
    mapGet m k = some v := by
  induction m with
  | nil => simp at hmem
  | cons p rest ih =>
    obtain ⟨pk, pv⟩ := p
    simp only [List.map_cons, List.nodup_cons] at hnd
    rcases List.mem_cons.mp hmem with hmem | hmem
    · obtain ⟨hk, hv⟩ := Prod.mk.injEq .. ▸ hmem
      subst hk
      subst hv
      rw [mapGet_cons, if_pos rfl]
    · rw [mapGet_cons]
      split_ifs with h
      · exfalso
        apply hnd.1
        rw [h]
        exact List.mem_map.mpr ⟨(k, v), hmem, rfl⟩
      · exact ih hmem hnd.2

/-! ### Group-collection invariants -/

theorem finishGroup_payload_perm (config : LinkedIssueGroupConfig)
    (raw : List SortedCardResult) :
    ((finishGroup config raw).map payload).Perm (raw.map payload) := by
  have hsized : (raw.map (fun c => { c with groupSize := some raw.length })).map payload
      = raw.map payload := by
    rw [List.map_map]
    rfl
  unfold finishGroup
  rcases config.sortWithinGroups with _ | swg
  · simp only []
    rw [hsized]
  · simp only []
    refine ((sortCmp_perm _ _).map payload).trans ?_
    rw [hsized]

def GroupsInv (graph : List (String × IssueGraphNode))
    (config : LinkedIssueGroupConfig) (st : GroupsState) : Prop :=
  st.visited.Nodup ∧
  (∀ k ∈ st.visited, (mapGet graph k).isSome) ∧
  ((st.groups.flatten.map payload).Perm
    (st.visited.map (nodePayloadAt graph))) ∧
  (∀ g ∈ st.groups, ∃ raw, raw ≠ [] ∧ g = finishGroup config raw
    ∧ ∀ c ∈ raw, c.aiGroupId = none ∧ c.aiSimilarity = none)

theorem payload_entryAt (graph : List (String × IssueGraphNode))
    (root k : String) : payload (entryAt graph root k) = nodePayloadAt graph k :=
  rfl

theorem processKey_inv (graph : List (String × IssueGraphNode))
    (config : LinkedIssueGroupConfig) (st : GroupsState) (key : String)
    (h : GroupsInv graph config st) :
    GroupsInv graph config (processKey graph config st key) := by
  obtain ⟨hnd, hsome, hperm, hshape⟩ := h
  obtain ⟨ks, hv, hg, hknd, hkf⟩ :=
    dfs_extendsD graph key (graph.length + 1) key ⟨st.visited, []⟩
  simp only [List.nil_append] at hg
  simp only [processKey]
  split_ifs with hempty
  · have hks : ks = [] := by
      rw [List.isEmpty_iff] at hempty
      rw [hempty] at hg
      exact List.map_eq_nil_iff.mp hg.symm
    subst hks
    simp only [List.reverse_nil, List.nil_append] at hv
    rw [hv]
    exact ⟨hnd, hsome, hperm, hshape⟩
  · refine ⟨?_, ?_, ?_, ?_⟩
    · rw [hv, List.nodup_append]
      refine ⟨List.nodup_reverse.mpr hknd, hnd, ?_⟩
      intro k hk1 hk2
      exact (hkf k (List.mem_reverse.mp hk1)).1 hk2
    · intro k hk
      rw [hv] at hk
      rcases List.mem_append.mp hk with hk | hk
      · exact (hkf k (List.mem_reverse.mp hk)).2
      · exact hsome k hk
    · simp only [List.flatten_append, List.flatten_cons, List.flatten_nil,
        List.append_nil, List.map_append, hv]
      have hfin : ((finishGroup config
          ((dfs graph key (graph.length + 1) key ⟨st.visited, []⟩).group)).map
            payload).Perm (ks.map (nodePayloadAt graph)) := by
        refine (finishGroup_payload_perm config _).trans ?_
        rw [hg, List.map_map]
        exact List.Perm.refl _
      refine (hperm.append hfin).trans ?_
      refine List.perm_append_comm.trans
        (List.Perm.append ?_ (List.Perm.refl _))
      rw [List.map_reverse]
      exact (List.reverse_perm _).symm
    · intro g hg'
      rcases List.mem_append.mp hg' with hg' | hg'
      · exact hshape g hg'
      · have hg'' : g = finishGroup config
            ((dfs graph key (graph.length + 1) key ⟨st.visited, []⟩).group) := by
          simpa using hg'
        refine ⟨_, ?_, hg'', ?_⟩
        · intro hnil
          rw [hnil] at hempty
          simp at hempty
        · intro c hc
          rw [hg] at hc
          rcases List.mem_map.mp hc with ⟨k', _, hk'⟩
          rw [← hk']
          exact ⟨rfl, rfl⟩

theorem foldl_processKey_inv (graph : List (String × IssueGraphNode))
    (config : LinkedIssueGroupConfig) :
    ∀ (keys : List String) (st : GroupsState), GroupsInv graph config st →
      GroupsInv graph config (keys.foldl (processKey graph config) st)
  | [], _, h => h
  | k :: ks, st, h => by
    rw [List.foldl_cons]
    exact foldl_processKey_inv graph config ks _ (processKey_inv graph config st k h)

theorem allGroups_inv (results : List SortedCardResult)
    (config : LinkedIssueGroupConfig) :
    GroupsInv (buildGraph results config).graph config
      (allGroups results config) := by
  unfold allGroups
  refine foldl_processKey_inv _ config _ _ (foldl_processKey_inv _ config _ _ ?_)
  exact ⟨List.nodup_nil, by simp, by simp, by simp⟩

theorem processKey_visited_sub (graph : List (String × IssueGraphNode))
    (config : LinkedIssueGroupConfig) (st : GroupsState) (key : String) :
    st.visited ⊆ (processKey graph config st key).visited := by
  have hext := dfs_extendsD graph key (graph.length + 1) key ⟨st.visited, []⟩
  have hsub := extendsD_visited_sub hext
  simp only [processKey]
  split_ifs with hempty
  · exact hsub
  · exact hsub

theorem dfs_mem_visited (graph : List (String × IssueGraphNode)) (root : String)
    (fuel : Nat) (key : String) (st : TraverseState)
    (h : key ∈ st.visited ∨ (mapGet graph key).isSome) :
    key ∈ (dfs graph root (fuel + 1) key st).visited := by
  rw [dfs]
  split_ifs with hmem
  · exact hmem
  · rcases hget : mapGet graph key with _ | node
    · rcases h with h | h
      · exact absurd h hmem
      · rw [hget] at h
        simp at h
    · have hext := foldl_dfs_extendsD graph root fuel
        (dfs_extendsD graph root fuel) node.linkedKeys
        ⟨key :: st.visited, st.group ++ [mkGroupEntry node root]⟩
      exact extendsD_visited_sub hext (List.mem_cons_self _ _)

theorem processKey_mem_visited (graph : List (String × IssueGraphNode))
    (config : LinkedIssueGroupConfig) (st : GroupsState) (key : String)
    (hkey : (mapGet graph key).isSome) :
    key ∈ (processKey graph config st key).visited := by
  simp only [processKey]
  split_ifs with hempty
  · exact dfs_mem_visited graph key graph.length key ⟨st.visited, []⟩ (Or.inr hkey)
  · exact dfs_mem_visited graph key graph.length key ⟨st.visited, []⟩ (Or.inr hkey)

theorem foldl_processKey_visited_sub (graph : List (String × IssueGraphNode))
    (config : LinkedIssueGroupConfig) :
    ∀ (keys : List String) (st : GroupsState),
      st.visited ⊆ (keys.foldl (processKey graph config) st).visited
  | [], _ => fun _ h => h
  | k :: ks, st => by
    rw [List.foldl_cons]
    exact fun a ha => foldl_processKey_visited_sub graph config ks _
      (processKey_visited_sub graph config st k ha)

theorem foldl_processKey_mem (graph : List (String × IssueGraphNode))
    (config : LinkedIssueGroupConfig) :
    ∀ (keys : List String) (st : GroupsState) (k : String), k ∈ keys →
      (mapGet graph k).isSome →
      k ∈ (keys.foldl (processKey graph config) st).visited
  | [], _, _, hk, _ => absurd hk (List.not_mem_nil _)
  | key :: ks, st, k, hk, hsome => by
    rw [List.foldl_cons]
    rcases List.mem_cons.mp hk with hk | hk
    · subst hk
      exact foldl_processKey_visited_sub graph config ks _
        (processKey_mem_visited graph config st k hsome)
    · exact foldl_processKey_mem graph config ks _ k hk hsome

theorem allGroups_complete (results : List SortedCardResult)
    (config : LinkedIssueGroupConfig) :
    ∀ k ∈ (buildGraph results config).graph.map (fun p => p.1),
      k ∈ (allGroups results config).visited := by
  intro k hk
  unfold allGroups
  exact foldl_processKey_mem _ config _ _ k hk
    ((mapGet_isSome_iff _ k).mpr hk)

theorem graphOrphans_eq_nil (results : List SortedCardResult)
    (config : LinkedIssueGroupConfig) :
    graphOrphans (buildGraph results config) (allGroups results config) = [] := by
  unfold graphOrphans
  rw [List.filter_eq_nil_iff.mpr, List.map_nil]
  intro p hp
  simp only [decide_not, Bool.not_eq_true', decide_eq_false_iff_not, not_not]
  exact allGroups_complete results config p.1
    (List.mem_map.mpr ⟨p, hp, rfl⟩)

/-! ### Characterisation of the built graph -/

/-- The node stored for a record with primary key `k`. -/
def mkNodeFor (config : LinkedIssueGroupConfig) (k : String)
    (r : SortedCardResult) : IssueGraphNode :=
  ⟨k, r.row, r.originalIndex, linkedKeysOf config r.row⟩

/-- The primary keys of the keyed records, in input order (duplicates
preserved). -/
def keyedKeys (results : List SortedCardResult)
    (config : LinkedIssueGroupConfig) : List String :=
  results.filterMap (fun r => primaryKeyOf config r.row)

/-- The graph bindings the keyed records would contribute, in input order. -/
def keyedEntries (results : List SortedCardResult)
    (config : LinkedIssueGroupConfig) : List (String × IssueGraphNode) :=
  results.filterMap (fun r => (primaryKeyOf config r.row).map
    (fun pk => (pk, mkNodeFor config pk r)))

theorem buildGraph_keys_nodup_aux (config : LinkedIssueGroupConfig) :
    ∀ (results : List SortedCardResult) (st : BuildState),
      (st.graph.map (fun p => p.1)).Nodup →
      (((results.foldl (buildStep config) st).graph.map (fun p => p.1))).Nodup
  | [], _, h => h
  | r :: rest, st, h => by
    rw [List.foldl_cons]
    refine buildGraph_keys_nodup_aux config rest _ ?_
    unfold buildStep
    rcases primaryKeyOf config r.row with _ | pk
    · exact h
    · exact mapSet_keys_nodup _ _ _ h

theorem buildGraph_keys_nodup (results : List SortedCardResult)
    (config : LinkedIssueGroupConfig) :
    (((buildGraph results config).graph.map (fun p => p.1))).Nodup :=
  buildGraph_keys_nodup_aux config results ⟨[], []⟩ List.nodup_nil

theorem buildGraph_get (config : LinkedIssueGroupConfig) (k : String) :
    ∀ results : List SortedCardResult,
      mapGet (buildGraph results config).graph k =
        ((results.filter
            (fun r => primaryKeyOf config r.row = some k)).getLast?).map
          (mkNodeFor config k) := by
  intro results
  induction results using List.reverseRecOn with
  | nil => rfl
  | append_singleton rs r ih =>
    unfold buildGraph at *
    rw [List.foldl_append, List.foldl_cons, List.foldl_nil, List.filter_append]
    show mapGet (buildStep config (rs.foldl (buildStep config) ⟨[], []⟩) r).graph k = _
    unfold buildStep
    rcases hpk : primaryKeyOf config r.row with _ | pk
    · have : List.filter (fun r => decide (primaryKeyOf config r.row = some k)) [r] = [] := by
        simp [List.filter, hpk]
      rw [this, List.append_nil]
      exact ih
    · by_cases hk : pk = k
      · subst hk
        have : List.filter (fun r => decide (primaryKeyOf config r.row = some pk)) [r] = [r] := by
          simp [List.filter, hpk]
        rw [this, mapGet_mapSet_self, List.getLast?_concat]
        rfl
      · have : List.filter (fun r => decide (primaryKeyOf config r.row = some k)) [r] = [] := by
          simp [List.filter, hpk, hk]
        rw [this, List.append_nil, mapGet_mapSet_ne _ _ _ _ (fun h => hk h.symm)]
        exact ih

theorem mapSet_of_not_mem (m : List (String × α)) (k : String) (v : α)
    (h : ¬ k ∈ m.map (fun p => p.1)) : mapSet m k v = m ++ [(k, v)] := by
  induction m with
  | nil => rfl
  | cons p rest ih =>
    simp only [List.map_cons, List.mem_cons] at h
    push_neg at h
    simp only [mapSet]
    rw [if_neg (fun hh => h.1 hh.symm), ih h.2]
    rfl

theorem isSome_option_map (o : Option α) (f : α → β) :
    (o.map f).isSome = o.isSome := by
  cases o <;> rfl

theorem buildGraph_mem_keys_iff (results : List SortedCardResult)
    (config : LinkedIssueGroupConfig) (k : String) :
    k ∈ (buildGraph results config).graph.map (fun p => p.1) ↔
      k ∈ keyedKeys results config := by
  rw [← mapGet_isSome_iff, buildGraph_get config k results]
  rw [isSome_option_map]
  rw [List.getLast?_isSome]
  unfold keyedKeys
  constructor
  · intro h
    rcases List.exists_mem_of_ne_nil _ h with ⟨r, hr⟩
    have := List.mem_filter.mp hr
    exact List.mem_filterMap.mpr ⟨r, this.1, by simpa using this.2⟩
  · intro h
    rcases List.mem_filterMap.mp h with ⟨r, hr, hpk⟩
    intro hnil
    have : r ∈ List.filter (fun r => decide (primaryKeyOf config r.row = some k)) results :=
      List.mem_filter.mpr ⟨hr, by simp [hpk]⟩
    rw [hnil] at this
    simp at this

theorem buildGraph_eq_of_nodup_aux (config : LinkedIssueGroupConfig) :
    ∀ (results : List SortedCardResult) (st : BuildState),
      (keyedKeys results config).Nodup →
      (∀ k ∈ keyedKeys results config, ¬ k ∈ st.graph.map (fun p => p.1)) →
      (results.foldl (buildStep config) st).graph
        = st.graph ++ keyedEntries results config
  | [], st, _, _ => by simp [keyedEntries]
  | r :: rest, st, hnd, hdisj => by
    rw [List.foldl_cons]
    unfold keyedEntries keyedKeys at *
    rcases hpk : primaryKeyOf config r.row with _ | pk
    · simp only [List.filterMap_cons, hpk] at hnd hdisj ⊢
      have hstep : buildStep config st r = st := by
        unfold buildStep
        rw [hpk]
      rw [hstep]
      exact buildGraph_eq_of_nodup_aux config rest st hnd hdisj
    · simp only [List.filterMap_cons, hpk, Option.map_some', List.nodup_cons,
        List.mem_cons] at hnd hdisj ⊢
      have hstep : (buildStep config st r).graph
          = st.graph ++ [(pk, mkNodeFor config pk r)] := by
        unfold buildStep
        rw [hpk]
        exact mapSet_of_not_mem st.graph pk _ (hdisj pk (Or.inl rfl))
      have hdisj' : ∀ k ∈ rest.filterMap (fun r => primaryKeyOf config r.row),
          ¬ k ∈ (buildStep config st r).graph.map (fun p => p.1) := by
        intro k hk
        rw [hstep, List.map_append]
        intro hmem
        rcases List.mem_append.mp hmem with hmem | hmem
        · exact hdisj k (Or.inr hk) hmem
        · simp only [List.map_cons, List.map_nil, List.mem_singleton] at hmem
          subst hmem
          exact hnd.1 hk
      rw [buildGraph_eq_of_nodup_aux config rest _ hnd.2 hdisj', hstep,
        List.append_assoc]
      rfl

/-! ### Master structure of `applySortLinkedIssues` -/

theorem applySortLinkedIssues_eq (results : List SortedCardResult)
    (config : LinkedIssueGroupConfig) :
    applySortLinkedIssues results config =
      (allGroups results config).groups.flatten
        ++ sortCmp (orphanCmp config) (noKeyOrphans results config) := by
  unfold applySortLinkedIssues
  simp only []
  rw [graphOrphans_eq_nil, List.nil_append]

theorem keys_map_nodePayload (g : List (String × IssueGraphNode))
    (hnd : (g.map (fun p => p.1)).Nodup) :
    (g.map (fun p => p.1)).map (nodePayloadAt g)
      = g.map (fun p => (p.2.row, p.2.originalIndex)) := by
  rw [List.map_map]
  refine List.map_congr_left ?_
  intro p hp
  have hget : mapGet g p.1 = some p.2 :=
    mapGet_of_mem_of_nodup g p.1 p.2 hp hnd
  simp [nodePayloadAt, hget]

theorem allGroups_visited_perm (results : List SortedCardResult)
    (config : LinkedIssueGroupConfig) :
    ((allGroups results config).visited).Perm
      ((buildGraph results config).graph.map (fun p => p.1)) := by
  obtain ⟨hnd, hsome, _, _⟩ := allGroups_inv results config
  refine (List.perm_ext_iff_of_nodup hnd
    (buildGraph_keys_nodup results config)).mpr ?_
  intro k
  constructor
  · intro hk
    exact (mapGet_isSome_iff _ k).mp (hsome k hk)
  · intro hk
    exact allGroups_complete results config k hk

theorem groups_flatten_payload_perm (results : List SortedCardResult)
    (config : LinkedIssueGroupConfig) :
    (((allGroups results config).groups.flatten).map payload).Perm
      ((buildGraph results config).graph.map
        (fun p => (p.2.row, p.2.originalIndex))) := by
  obtain ⟨_, _, hperm, _⟩ := allGroups_inv results config
  refine hperm.trans ?_
  rw [← keys_map_nodePayload _ (buildGraph_keys_nodup results config)]
  exact (allGroups_visited_perm results config).map _

theorem applySortLinkedIssues_payload_perm (results : List SortedCardResult)
    (config : LinkedIssueGroupConfig) :
    ((applySortLinkedIssues results config).map payload).Perm
      ((buildGraph results config).graph.map
          (fun p => (p.2.row, p.2.originalIndex))
        ++ (noKeyOrphans results config).map payload) := by
  rw [applySortLinkedIssues_eq, List.map_append]
  exact (groups_flatten_payload_perm results config).append
    ((sortCmp_perm _ _).map payload)

/-! ### Total-preorder facts for the string comparators -/

theorem naturalCmp_gt_iff {a b : String} :
    naturalCmp a b = .gt ↔ naturalCmp b a = .lt :=
  cmpList_gt_iff

theorem naturalCmp_le_trans {a b c : String} (h1 : naturalCmp a b ≠ .gt)
    (h2 : naturalCmp b c ≠ .gt) : naturalCmp a c ≠ .gt :=
  cmpList_le_trans h1 h2

theorem orphanCmp_gt_lt (config : LinkedIssueGroupConfig)
    (a b : SortedCardResult) (h : orphanCmp config a b = .gt) :
    orphanCmp config b a = .lt :=
  cmpList_gt_iff.mp h

theorem orphanCmp_le_trans (config : LinkedIssueGroupConfig)
    (a b c : SortedCardResult) (h1 : orphanCmp config a b ≠ .gt)
    (h2 : orphanCmp config b c ≠ .gt) : orphanCmp config a c ≠ .gt :=
  cmpList_le_trans h1 h2

theorem ordering_swap_eq_gt {o : Ordering} : o.swap = .gt ↔ o = .lt := by
  cases o <;> simp [Ordering.swap]

theorem ordering_swap_eq_lt {o : Ordering} : o.swap = .lt ↔ o = .gt := by
  cases o <;> simp [Ordering.swap]

theorem withinGroupCmp_gt_lt (swg : SimpleSortConfig) (a b : SortedCardResult)
    (h : withinGroupCmp swg a b = .gt) : withinGroupCmp swg b a = .lt := by
  unfold withinGroupCmp at *
  rcases hva : getField a.row swg.field with _ | x <;>
    rcases hvb : getField b.row swg.field with _ | y <;>
      simp only [hva, hvb] at h ⊢
  · exact absurd h (by simp)
  · exact absurd h (by simp)
  · rcases hd : swg.direction <;> simp only [hd] at h ⊢
    · exact naturalCmp_gt_iff.mp h
    · rw [ordering_swap_eq_gt] at h
      rw [ordering_swap_eq_lt]
      exact naturalCmp_gt_iff.mpr h

theorem withinGroupCmp_le_trans (swg : SimpleSortConfig)
    (a b c : SortedCardResult) (h1 : withinGroupCmp swg a b ≠ .gt)
    (h2 : withinGroupCmp swg b c ≠ .gt) : withinGroupCmp swg a c ≠ .gt := by
  unfold withinGroupCmp at *
  rcases hva : getField a.row swg.field with _ | x <;>
    rcases hvb : getField b.row swg.field with _ | y <;>
      rcases hvc : getField c.row swg.field with _ | z <;>
        simp only [hva, hvb, hvc] at h1 h2 ⊢
  · simp
  · exact absurd rfl h2
  · exact absurd rfl h1
  · exact absurd rfl h1
  · simp
  · exact absurd rfl h2
  · simp
  · rcases hd : swg.direction <;> simp only [hd] at h1 h2 ⊢
    · exact naturalCmp_le_trans h1 h2
    · intro hgt
      rw [ordering_swap_eq_gt] at hgt
      have h1' : naturalCmp x y ≠ .lt := fun hh => h1 (ordering_swap_eq_gt.mpr hh)
      have h2' : naturalCmp y z ≠ .lt := fun hh => h2 (ordering_swap_eq_gt.mpr hh)
      have hba : naturalCmp y x ≠ .gt := fun hh => h1' (naturalCmp_gt_iff.mp hh)
      have hcb : naturalCmp z y ≠ .gt := fun hh => h2' (naturalCmp_gt_iff.mp hh)
      exact naturalCmp_le_trans hcb hba (naturalCmp_gt_iff.mpr hgt)

/-! ### Auxiliary facts about finished groups -/

theorem finishGroup_length (config : LinkedIssueGroupConfig)
    (raw : List SortedCardResult) :
    (finishGroup config raw).length = raw.length := by
  unfold finishGroup
  rcases config.sortWithinGroups with _ | swg
  · simp
  · simp [(sortCmp_perm _ _).length_eq]

theorem finishGroup_groupSize (config : LinkedIssueGroupConfig)
    (raw : List SortedCardResult) :
    ∀ c ∈ finishGroup config raw, c.groupSize = some raw.length := by
  intro c hc
  unfold finishGroup at hc
  rcases hm : config.sortWithinGroups with _ | swg
  · simp only [hm, List.mem_map] at hc
    obtain ⟨x, _, hx⟩ := hc
    rw [← hx]
  · simp only [hm] at hc
    have hc' := (sortCmp_perm _ _).mem_iff.mp hc
    simp only [List.mem_map] at hc'
    obtain ⟨x, _, hx⟩ := hc'
    rw [← hx]

theorem finishGroup_sorted (config : LinkedIssueGroupConfig)
    (swg : SimpleSortConfig) (h : config.sortWithinGroups = some swg)
    (raw : List SortedCardResult) :
    (finishGroup config raw).Pairwise
      (fun a b => withinGroupCmp swg a b ≠ .gt) := by
  unfold finishGroup
  rw [h]
  exact sortCmp_pairwise_of _ (withinGroupCmp_gt_lt swg)
    (withinGroupCmp_le_trans swg) _

/-! ### Concrete fixtures for the claim scenarios -/

/-- The default LinkGroup configuration over `Key`/`Links` with the standard
issue-key pattern. -/
def cycleConfig : LinkedIssueGroupConfig :=
  { keyField := "Key", linkedIssuesField := "Links"
    issueKeyPattern := ticketPatternMatches }

def rowMutA : TicketRow := [("Key", "AA-1"), ("Links", "AA-2")]
def rowMutB : TicketRow := [("Key", "AA-2"), ("Links", "AA-1")]
def resMutA : SortedCardResult := { row := rowMutA, originalIndex := 0 }
def resMutB : SortedCardResult := { row := rowMutB, originalIndex := 1 }

def rowSelf : TicketRow := [("Key", "BB-7"), ("Links", "BB-7")]
def resSelf : SortedCardResult := { row := rowSelf, originalIndex := 0 }

def resOrphX : SortedCardResult := { row := [("Key", "alpha10")], originalIndex := 0 }
def resOrphY : SortedCardResult := { row := [("Key", "alpha2")], originalIndex := 1 }

/-- A within-group sort config with the numeric flag set. -/
def swgNumeric : SimpleSortConfig := { field := "V", direction := .asc, numeric := true }

def cfgWithin : LinkedIssueGroupConfig :=
  { keyField := "Key", linkedIssuesField := "Links"
    issueKeyPattern := ticketPatternMatches
    sortWithinGroups := some swgNumeric }

def resW1 : SortedCardResult :=
  { row := [("Key", "AA-1"), ("Links", "AA-2"), ("V", "-1")], originalIndex := 0 }
def resW2 : SortedCardResult :=
  { row := [("Key", "AA-2"), ("V", "-2")], originalIndex := 1 }

/-! ### Claim theorems for the deterministic sorter -/

/-- C1: for every record set — cyclic ones included — the LinkGroup
traversal terminates (the embedding is a total function), visits each graph
node exactly once (the visited list is a permutation of the graph's keys),
and places every node's record in exactly one group (the concatenation of
all groups carries each graph node's payload exactly once); concretely, a
mutual two-cycle yields a single group of `groupSize` 2 in either discovery
order, and an isolated self-loop yields a single group of `groupSize` 1 with
the record appearing exactly once. -/
theorem claim1_cycle_safety :
    (∀ (results : List SortedCardResult) (config : LinkedIssueGroupConfig),
        ((allGroups results config).visited).Perm
          ((buildGraph results config).graph.map (fun p => p.1))
        ∧ (((allGroups results config).groups.flatten).map payload).Perm
            ((buildGraph results config).graph.map
              (fun p => (p.2.row, p.2.originalIndex))))
    ∧ applySortLinkedIssues [resMutA, resMutB] cycleConfig
        = [{ row := rowMutA, originalIndex := 0, groupId := some "AA-1", groupSize := some 2 },
           { row := rowMutB, originalIndex := 1, groupId := some "AA-1", groupSize := some 2 }]
    ∧ applySortLinkedIssues [resMutB, resMutA] cycleConfig
        = [{ row := rowMutB, originalIndex := 1, groupId := some "AA-2", groupSize := some 2 },
           { row := rowMutA, originalIndex := 0, groupId := some "AA-2", groupSize := some 2 }]
    ∧ applySortLinkedIssues [resSelf] cycleConfig
        = [{ row := rowSelf, originalIndex := 0, groupId := some "BB-7", groupSize := some 1 }] :=
  ⟨fun results config =>
    ⟨allGroups_visited_perm results config,
      groups_flatten_payload_perm results config⟩,
    by decide, by decide, by decide⟩

/-- C2 counterexample: the orphan suffix is **not** natural-sorted.  With the
two keyless records `alpha10` (index 0) and `alpha2` (index 1) the output
keeps `alpha10` before `alpha2` (plain `localeCompare`: `'1' < '2'`), while
natural sort would order `alpha2` before `alpha10` — so the output's key
strings are not pairwise natural-sorted, refuting the claim at this input. -/
theorem claim2_counterexample :
    ¬ ((applySortLinkedIssues [resOrphX, resOrphY] cycleConfig).map
        (orphanKeyStr cycleConfig)).Pairwise
          (fun a b => naturalCmp a b ≠ .gt) := by
  decide

/-- C2 amended: orphan records (those whose key field yields zero
identifiers) appear after every group, sorted by plain `localeCompare` on
the raw key-field string (digit runs compared character-wise, **not**
numerically), and the orphan suffix is exactly a permutation of the keyless
records. -/
theorem claim2_orphans_after_groups :
    ∀ (results : List SortedCardResult) (config : LinkedIssueGroupConfig),
      applySortLinkedIssues results config
        = (allGroups results config).groups.flatten
          ++ sortCmp (orphanCmp config) (noKeyOrphans results config)
      ∧ (sortCmp (orphanCmp config) (noKeyOrphans results config)).Pairwise
          (fun a b => orphanCmp config a b ≠ .gt)
      ∧ ((sortCmp (orphanCmp config)
            (noKeyOrphans results config)).map payload).Perm
          ((results.filter
              (fun r => primaryKeyOf config r.row = none)).map payload) := by
  intro results config
  refine ⟨applySortLinkedIssues_eq results config, ?_, ?_⟩
  · exact sortCmp_pairwise_of _ (orphanCmp_gt_lt config)
      (orphanCmp_le_trans config) _
  · refine ((sortCmp_perm _ _).map payload).trans ?_
    unfold noKeyOrphans
    rw [List.map_map]
    exact List.Perm.refl _

/-- C5: after one `applySortSimple` pass the output is a permutation of the
input in which every record whose sort-field value is null/undefined/absent
appears after every record with a non-null value, for both directions (the
nulls-last branch returns before the direction flip is applied). -/
theorem claim5_nulls_last :
    ∀ (results : List SortedCardResult) (config : SimpleSortConfig),
      ((applySortSimple results config).Perm results)
      ∧ (applySortSimple results config).Pairwise
          (fun a b => getField a.row config.field = none →
            getField b.row config.field = none) := by
  intro results config
  refine ⟨sortCmp_perm _ _, ?_⟩
  refine sortCmp_pairwise_null _ (fun r => getField r.row config.field = none)
    ?_ ?_ results
  · intro a b ha hb
    unfold simpleCmp compareVals
    rcases hvb : getField b.row config.field with _ | y
    · exact absurd hvb hb
    · rw [ha]
  · intro a b ha hb
    unfold simpleCmp compareVals
    rcases hva : getField a.row config.field with _ | x
    · exact absurd hva ha
    · rw [hb]

/-- C6 counterexample: the within-group sort ignores the `numeric` flag.
With `sortWithinGroups = {field: V, asc, numeric: true}` and a group whose
`V` values are `"-1"` and `"-2"`, §4.2 numeric semantics would place `-2`
first (`parseFloat`), but the code's natural string comparison keeps `"-1"`
first — the produced group is not sorted by the §4.2 comparator. -/
theorem claim6_counterexample :
    ¬ ∀ g ∈ (allGroups [resW1, resW2] cfgWithin).groups,
        g.Pairwise (fun a b =>
          compareVals swgNumeric (getField a.row "V")
            (getField b.row "V") ≠ .gt) := by
  decide

/-- C6 amended: when a `sortWithinGroups` config is present, each discovered
group is independently sorted by the nulls-last **natural string**
comparator with the configured direction (the `numeric` flag of the config
is not consulted), and every member of a finished group carries
`groupSize = ` the group's member count. -/
theorem claim6_within_group_sort :
    ∀ (results : List SortedCardResult) (config : LinkedIssueGroupConfig)
      (swg : SimpleSortConfig), config.sortWithinGroups = some swg →
      ∀ g ∈ (allGroups results config).groups,
        g.Pairwise (fun a b => withinGroupCmp swg a b ≠ .gt)
        ∧ ∀ c ∈ g, c.groupSize = some g.length := by
  intro results config swg hswg g hg
  obtain ⟨_, _, _, hshape⟩ := allGroups_inv results config
  obtain ⟨raw, _, hraw, _⟩ := hshape g hg
  subst hraw
  refine ⟨finishGroup_sorted config swg hswg raw, ?_⟩
  intro c hc
  rw [finishGroup_length]
  exact finishGroup_groupSize config raw c hc

/-- C6 witness: the amended statement instantiated at the concrete
numeric-flag scenario. -/
theorem claim6_within_group_sort_witness :
    cfgWithin.sortWithinGroups = some swgNumeric
    ∧ ∀ g ∈ (allGroups [resW1, resW2] cfgWithin).groups,
        g.Pairwise (fun a b => withinGroupCmp swgNumeric a b ≠ .gt)
        ∧ ∀ c ∈ g, c.groupSize = some g.length :=
  ⟨rfl, claim6_within_group_sort [resW1, resW2] cfgWithin swgNumeric rfl⟩

/-- C7 counterexample: with `numeric = true` and a pair whose values do not
parse (`"x10"`, `"x2"`), the code's fallback (plain `localeCompare`) orders
`"x10"` before `"x2"`, while the §4.2 natural/case-insensitive rule the
claim names would order them the other way — the fallback comparison is not
the natural one. -/
theorem claim7_counterexample :
    compareVals { field := "v", direction := .asc, numeric := true }
        (some "x10") (some "x2") = .lt
    ∧ naturalCmp "x10" "x2" = .gt := by
  constructor
  · decide
  · decide

/-- C7 amended: with `numeric = true`, whenever either value fails to parse
as a number, the comparison for that pair falls back to plain
`localeCompare` (basic ICU collation — locale-aware but **not** the
numeric-substring-aware, case-folding rule used by the non-numeric branch),
with `desc` negating the result. -/
theorem claim7_nan_fallback :
    ∀ (config : SimpleSortConfig) (a b : String), config.numeric = true →
      (parseFloat a = none ∨ parseFloat b = none) →
      compareVals config (some a) (some b)
        = (match config.direction with
            | .asc => basicCmp a b
            | .desc => (basicCmp a b).swap) := by
  intro config a b hnum hnan
  unfold compareVals
  rcases hpa : parseFloat a with _ | qa <;> rcases hpb : parseFloat b with _ | qb
  · simp only [hnum, if_true, hpa, hpb]
  · simp only [hnum, if_true, hpa, hpb]
  · simp only [hnum, if_true, hpa, hpb]
  · rcases hnan with hnan | hnan
    · rw [hpa] at hnan
      simp at hnan
    · rw [hpb] at hnan
      simp at hnan

/-- C7 witness: the fallback theorem instantiated at `numeric = true`,
values `"x10"`/`"x2"` (both `NaN`). -/
theorem claim7_nan_fallback_witness :
    ({ field := "v", direction := .asc, numeric := true } : SimpleSortConfig).numeric = true
    ∧ (parseFloat "x10" = none ∨ parseFloat "x2" = none)
    ∧ compareVals { field := "v", direction := .asc, numeric := true }
        (some "x10") (some "x2")
      = (match SortDirection.asc with
          | .asc => basicCmp "x10" "x2"
          | .desc => (basicCmp "x10" "x2").swap) :=
  ⟨rfl, Or.inl (by decide),
    claim7_nan_fallback { field := "v", direction := .asc, numeric := true }
      "x10" "x2" rfl (Or.inl (by decide))⟩

/-- C9: `applySorting` with an empty rule list returns the identity
ordering: the same rows in the same order, each paired with its input
position as `originalIndex`. -/
theorem claim9_identity_pass :
    ∀ rows : List TicketRow,
      applySorting rows { rules := [] } = initialResults rows
      ∧ (applySorting rows { rules := [] }).map (fun r => r.row) = rows
      ∧ (applySorting rows { rules := [] }).map (fun r => r.originalIndex)
          = List.range rows.length := by
  intro rows
  have h1 : applySorting rows { rules := [] } = initialResults rows := by
    unfold applySorting
    split_ifs with hempty hrules
    · rw [List.isEmpty_iff.mp hempty]
      rfl
    · rfl
    · exact absurd rfl hrules
  refine ⟨h1, ?_, ?_⟩
  · rw [h1]
    unfold initialResults
    rw [List.map_map]
    have : ((fun r => SortedCardResult.row r) ∘
        fun p : Nat × TicketRow => { row := p.2, originalIndex := p.1 })
        = Prod.snd := rfl
    rw [this, List.enum_map_snd]
  · rw [h1]
    unfold initialResults
    rw [List.map_map]
    have : ((fun r => SortedCardResult.originalIndex r) ∘
        fun p : Nat × TicketRow => { row := p.2, originalIndex := p.1 })
        = Prod.fst := rfl
    rw [this, List.enum_map_fst]

/-! ### C10: duplicate primary identifiers -/

theorem mem_of_head?_eq {l : List α} {a : α} (h : l.head? = some a) : a ∈ l := by
  cases l with
  | nil => simp at h
  | cons x xs =>
    simp only [List.head?] at h
    rw [show a = x from (Option.some.injEq .. ▸ h).symm]
    exact List.mem_cons_self x xs

theorem mem_of_getLast?_eq {l : List α} {a : α} (h : l.getLast? = some a) :
    a ∈ l := by
  rw [List.getLast?_eq_head?_reverse] at h
  exact List.mem_reverse.mp (mem_of_head?_eq h)

theorem getLast?_mem_suffix {l1 l2 : List α} {a : α} (h2 : l2 ≠ [])
    (h : (l1 ++ l2).getLast? = some a) : a ∈ l2 := by
  rw [List.getLast?_append] at h
  rcases hx : l2.getLast? with _ | x
  · have hs := List.getLast?_isSome.mpr h2
    rw [hx] at hs
    simp at hs
  · rw [hx] at h
    simp only [Option.or_some, Option.some.injEq] at h
    rw [← h]
    exact mem_of_getLast?_eq hx

theorem keyedKeys_length (results : List SortedCardResult)
    (config : LinkedIssueGroupConfig) :
    (keyedKeys results config).length
      = (results.filter
          (fun r => (primaryKeyOf config r.row).isSome)).length := by
  unfold keyedKeys
  induction results with
  | nil => rfl
  | cons r rest ih =>
    rcases hpk : primaryKeyOf config r.row with _ | pk
    · simp only [List.filterMap_cons, hpk, List.filter_cons, Option.isSome_none,
        Bool.false_eq_true, if_false]
      exact ih
    · simp only [List.filterMap_cons, hpk, List.filter_cons, Option.isSome_some,
        if_true, List.length_cons]
      rw [ih]

theorem keyedEntries_payload (results : List SortedCardResult)
    (config : LinkedIssueGroupConfig) :
    (keyedEntries results config).map (fun p => (p.2.row, p.2.originalIndex))
      = (results.filter
          (fun r => (primaryKeyOf config r.row).isSome)).map payload := by
  unfold keyedEntries
  induction results with
  | nil => rfl
  | cons r rest ih =>
    rcases hpk : primaryKeyOf config r.row with _ | pk
    · simp only [List.filterMap_cons, hpk, Option.map_none', List.filter_cons,
        Option.isSome_none, Bool.false_eq_true, if_false]
      exact ih
    · simp only [List.filterMap_cons, hpk, Option.map_some', List.filter_cons,
        Option.isSome_some, if_true, List.map_cons]
      rw [ih]
      rfl

theorem noKeyOrphans_payload (results : List SortedCardResult)
    (config : LinkedIssueGroupConfig) :
    (noKeyOrphans results config).map payload
      = (results.filter
          (fun r => primaryKeyOf config r.row = none)).map payload := by
  unfold noKeyOrphans
  rw [List.map_map]
  rfl

theorem filter_not_isSome_eq (results : List SortedCardResult)
    (config : LinkedIssueGroupConfig) :
    results.filter (fun r => !(primaryKeyOf config r.row).isSome)
      = results.filter (fun r => primaryKeyOf config r.row = none) := by
  refine List.filter_congr ?_
  intro r _
  rcases hpk : primaryKeyOf config r.row with _ | pk <;> simp [hpk]

theorem graph_keys_perm_dedup (results : List SortedCardResult)
    (config : LinkedIssueGroupConfig) :
    ((buildGraph results config).graph.map (fun p => p.1)).Perm
      (keyedKeys results config).dedup := by
  refine (List.perm_ext_iff_of_nodup (buildGraph_keys_nodup results config)
    (List.nodup_dedup _)).mpr ?_
  intro k
  rw [List.mem_dedup]
  exact buildGraph_mem_keys_iff results config k

theorem results_length_split (results : List SortedCardResult)
    (config : LinkedIssueGroupConfig) :
    results.length
      = (results.filter (fun r => (primaryKeyOf config r.row).isSome)).length
        + (results.filter (fun r => primaryKeyOf config r.row = none)).length := by
  have h := (List.filter_append_perm
    (fun r => (primaryKeyOf config r.row).isSome) results).length_eq
  rw [List.length_append, filter_not_isSome_eq] at h
  omega

theorem applySortLinkedIssues_length (results : List SortedCardResult)
    (config : LinkedIssueGroupConfig) :
    (applySortLinkedIssues results config).length
      = (buildGraph results config).graph.length
        + (results.filter (fun r => primaryKeyOf config r.row = none)).length := by
  have h := (applySortLinkedIssues_payload_perm results config).length_eq
  rw [List.length_map, List.length_append, List.length_map, List.length_map] at h
  have h2 : (noKeyOrphans results config).length
      = (results.filter (fun r => primaryKeyOf config r.row = none)).length := by
    unfold noKeyOrphans
    rw [List.length_map]
  rw [h, h2]

/-- C10: duplicate primary identifiers drop the earlier records.  When the
keyed records' primary keys contain a duplicate, the output is strictly
shorter than the input; when all primary keys are distinct, the output is a
permutation of the input; and for a concrete duplicated key, the earlier
duplicate's payload (assuming all payloads distinct) appears nowhere in the
output — only the last record with that key survives. -/
theorem claim10_duplicate_keys :
    ∀ (results : List SortedCardResult) (config : LinkedIssueGroupConfig),
      (¬ (keyedKeys results config).Nodup →
        (applySortLinkedIssues results config).length < results.length)
      ∧ ((keyedKeys results config).Nodup →
        ((applySortLinkedIssues results config).map payload).Perm
          (results.map payload))
      ∧ (∀ (pre mid post : List SortedCardResult)
          (r1 r2 : SortedCardResult) (k : String),
          results = pre ++ r1 :: mid ++ r2 :: post →
          primaryKeyOf config r1.row = some k →
          primaryKeyOf config r2.row = some k →
          (results.map payload).Nodup →
          ¬ payload r1 ∈ (applySortLinkedIssues results config).map payload) := by
  intro results config
  refine ⟨?_, ?_, ?_⟩
  · intro hdup
    rw [applySortLinkedIssues_length, results_length_split results config]
    have hkl := keyedKeys_length results config
    have hgl : (buildGraph results config).graph.length
        = (keyedKeys results config).dedup.length := by
      have h := (graph_keys_perm_dedup results config).length_eq
      rw [List.length_map] at h
      exact h
    have hlt : (keyedKeys results config).dedup.length
        < (keyedKeys results config).length := by
      have hle := (List.dedup_sublist (keyedKeys results config)).length_le
      rcases Nat.lt_or_ge (keyedKeys results config).dedup.length
        (keyedKeys results config).length with h | h
      · exact h
      · exfalso
        have heq := (List.dedup_sublist
          (keyedKeys results config)).eq_of_length (le_antisymm hle h)
        exact hdup (heq ▸ List.nodup_dedup (keyedKeys results config))
    omega
  · intro hnd
    refine (applySortLinkedIssues_payload_perm results config).trans ?_
    have hgraph : (buildGraph results config).graph
        = keyedEntries results config := by
      have h := buildGraph_eq_of_nodup_aux config results ⟨[], []⟩ hnd (by simp)
      simpa [buildGraph] using h
    rw [hgraph, keyedEntries_payload, noKeyOrphans_payload]
    have h := (List.filter_append_perm
      (fun r => (primaryKeyOf config r.row).isSome) results).map payload
    rw [List.map_append, filter_not_isSome_eq] at h
    exact h
  · intro pre mid post r1 r2 k hsplit hk1 hk2 hnd hmem
    have hr1mem : r1 ∈ results := by
      rw [hsplit]
      simp
    have hinj := List.inj_on_of_nodup_map hnd
    have hndres : results.Nodup := List.Nodup.of_map payload hnd
    have hmem2 := (applySortLinkedIssues_payload_perm results config).mem_iff.mp hmem
    rcases List.mem_append.mp hmem2 with hmem2 | hmem2
    · rcases List.mem_map.mp hmem2 with ⟨q, hq, hqp⟩
      have hget : mapGet (buildGraph results config).graph q.1 = some q.2 :=
        mapGet_of_mem_of_nodup _ q.1 q.2 hq (buildGraph_keys_nodup results config)
      rw [buildGraph_get config q.1 results] at hget
      rcases hlast : (results.filter
          (fun r => primaryKeyOf config r.row = some q.1)).getLast? with _ | rl
      · rw [hlast] at hget
        simp at hget
      · rw [hlast] at hget
        simp only [Option.map_some', Option.some.injEq] at hget
        have hrlmem := mem_of_getLast?_eq hlast
        have hrlfilter := List.mem_filter.mp hrlmem
        have hpl : payload rl = payload r1 := by
          rw [← hqp, ← hget]
          rfl
        have hrl_eq : rl = r1 := hinj hrlfilter.1 hr1mem hpl
        have hq1k : q.1 = k := by
          have h1 := hrlfilter.2
          rw [hrl_eq] at h1
          simp only [decide_eq_true_eq] at h1
          rw [hk1] at h1
          exact (Option.some_inj.mp h1).symm
        rw [hrl_eq, hq1k] at hlast
        rw [hsplit] at hlast
        rw [List.filter_append, List.filter_cons,
          if_pos (by simp only [decide_eq_true_eq]; exact hk2),
          List.filter_append, List.filter_cons,
          if_pos (by simp only [decide_eq_true_eq]; exact hk1)] at hlast
        have hxmem : r1 ∈ r2 :: List.filter
            (fun r => decide (primaryKeyOf config r.row = some k)) post :=
          getLast?_mem_suffix (by simp) hlast
        rw [hsplit] at hndres
        have hdisj := (List.nodup_append.mp hndres).2.2
        have hr1left : r1 ∈ pre ++ r1 :: mid := by simp
        refine hdisj hr1left ?_
        rcases List.mem_cons.mp hxmem with hh | hh
        · rw [hh]
          exact List.mem_cons_self _ _
        · exact List.mem_cons_of_mem _ (List.mem_of_mem_filter hh)
    · rw [noKeyOrphans_payload] at hmem2
      rcases List.mem_map.mp hmem2 with ⟨r', hr', hr'p⟩
      have hf := List.mem_filter.mp hr'
      have hr'eq : r' = r1 := hinj hf.1 hr1mem hr'p
      have h2 := hf.2
      rw [hr'eq] at h2
      simp only [decide_eq_true_eq] at h2
      rw [hk1] at h2
      exact Option.some_ne_none k h2


def resDup1 : SortedCardResult :=
  { row := [("Key", "AA-1"), ("V", "x")], originalIndex := 0 }
def resDup2 : SortedCardResult :=
  { row := [("Key", "AA-1"), ("V", "y")], originalIndex := 1 }

/-- C10 witness: two records sharing primary key `AA-1` — the output has
fewer results and the earlier record's payload is gone; two records with
distinct keys — the output is a permutation of the input. -/
theorem claim10_duplicate_keys_witness :
    (¬ (keyedKeys [resDup1, resDup2] cycleConfig).Nodup
      ∧ (applySortLinkedIssues [resDup1, resDup2] cycleConfig).length
          < ([resDup1, resDup2] : List SortedCardResult).length)
    ∧ ((keyedKeys [resMutA, resMutB] cycleConfig).Nodup
      ∧ ((applySortLinkedIssues [resMutA, resMutB] cycleConfig).map payload).Perm
          ([resMutA, resMutB].map payload))
    ∧ (([resDup1, resDup2] : List SortedCardResult)
          = [] ++ resDup1 :: [] ++ resDup2 :: []
      ∧ primaryKeyOf cycleConfig resDup1.row = some "AA-1"
      ∧ primaryKeyOf cycleConfig resDup2.row = some "AA-1"
      ∧ (([resDup1, resDup2].map payload).Nodup)
      ∧ ¬ payload resDup1 ∈
          (applySortLinkedIssues [resDup1, resDup2] cycleConfig).map payload) := by
  refine ⟨⟨by decide, ?_⟩, ⟨by decide, ?_⟩, rfl, by decide, by decide, by decide, ?_⟩
  · exact (claim10_duplicate_keys [resDup1, resDup2] cycleConfig).1 (by decide)
  · exact (claim10_duplicate_keys [resMutA, resMutB] cycleConfig).2.1 (by decide)
  · exact (claim10_duplicate_keys [resDup1, resDup2] cycleConfig).2.2
      [] [] [] resDup1 resDup2 "AA-1" rfl (by decide) (by decide) (by decide)

/-! ### The AI merge layer (`applyAISorting` and friends) -/

instance [DecidableEq ε] [DecidableEq α] : DecidableEq (Except ε α)
  | .ok a, .ok b =>
    if h : a = b then isTrue (by rw [h]) else isFalse (by intro hh; cases hh; exact h rfl)
  | .error a, .error b =>
    if h : a = b then isTrue (by rw [h]) else isFalse (by intro hh; cases hh; exact h rfl)
  | .ok _, .error _ => isFalse (by intro h; cases h)
  | .error _, .ok _ => isFalse (by intro h; cases h)

/-- JSON values; a number is an exact scaled decimal `m / 10^e`. -/
inductive Json where
  | null
  | bool (b : Bool)
  | num (m : Int) (e : Nat)
  | str (s : String)
  | arr (xs : List Json)
  | obj (fields : List (String × Json))

def isJsonWs (c : Char) : Bool :=
  c = ' ' ∨ c = '\t' ∨ c = '\n' ∨ c = '\r'

def hexVal (c : Char) : Option Nat :=
  if '0' ≤ c ∧ c ≤ '9' then some (c.toNat - 48)
  else if 'a' ≤ c ∧ c ≤ 'f' then some (c.toNat - 87)
  else if 'A' ≤ c ∧ c ≤ 'F' then some (c.toNat - 55)
  else none

/-- JSON string body parser (after the opening quote). -/
def jstrAux : List Char → Except Unit (List Char × List Char)
  | [] => .error ()
  | '"' :: r => .ok ([], r)
  | '\\' :: 'u' :: h1 :: h2 :: h3 :: h4 :: r =>
    match hexVal h1, hexVal h2, hexVal h3, hexVal h4 with
    | some a, some b, some c, some d =>
      match jstrAux r with
      | .ok (cs, rest) => .ok (Char.ofNat (((a * 16 + b) * 16 + c) * 16 + d) :: cs, rest)
      | .error e => .error e
    | _, _, _, _ => .error ()
  | '\\' :: e :: r =>
    match
      (match e with
        | '"' => some '"'
        | '\\' => some '\\'
        | '/' => some '/'
        | 'b' => some (Char.ofNat 8)
        | 'f' => some (Char.ofNat 12)
        | 'n' => some '\n'
        | 'r' => some '\r'
        | 't' => some '\t'
        | _ => none) with
    | some c =>
      match jstrAux r with
      | .ok (cs, rest) => .ok (c :: cs, rest)
      | .error er => .error er
    | none => .error ()
  | c :: r =>
    match jstrAux r with
    | .ok (cs, rest) => .ok (c :: cs, rest)
    | .error e => .error e

/-- JSON number parser: digits, optional fraction, optional exponent.
(Leading-zero rejection of strict JSON is not modelled.) -/
def jnumAux (cs : List Char) : Except Unit ((Int × Nat) × List Char) :=
  let p : Int × List Char :=
    match cs with
    | '-' :: r => (-1, r)
    | r => (1, r)
  let ip := p.2.takeWhile (fun c => c.isDigit)
  let r1 := p.2.dropWhile (fun c => c.isDigit)
  if ip = [] then .error ()
  else
    let fpr : List Char × List Char :=
      match r1 with
      | '.' :: r => (r.takeWhile (fun c => c.isDigit), r.dropWhile (fun c => c.isDigit))
      | _ => ([], r1)
    if (match r1 with | '.' :: _ => fpr.1.isEmpty | _ => false) then .error ()
    else
      let m0 : Int := p.1 * (digitsVal (ip ++ fpr.1) : Int)
      let e0 : Nat := fpr.1.length
      match fpr.2 with
      | 'e' :: r => jnumExp m0 e0 r
      | 'E' :: r => jnumExp m0 e0 r
      | r => .ok ((m0, e0), r)
where
  jnumExp (m0 : Int) (e0 : Nat) (r : List Char) :
      Except Unit ((Int × Nat) × List Char) :=
    let q : Bool × List Char :=
      match r with
      | '-' :: r2 => (true, r2)
      | '+' :: r2 => (false, r2)
      | r2 => (false, r2)
    let ds := q.2.takeWhile (fun c => c.isDigit)
    let rest := q.2.dropWhile (fun c => c.isDigit)
    if ds = [] then .error ()
    else
      let ex := digitsVal ds
      if q.1 then .ok ((m0, e0 + ex), rest)
      else if ex ≥ e0 then .ok ((m0 * pow10 (ex - e0), 0), rest)
      else .ok ((m0, e0 - ex), rest)

inductive JTask where
  | val
  | arrItems (acc : List Json)
  | objItems (acc : List (String × Json))

/-- Fuel-indexed recursive-descent JSON parser (`JSON.parse` model). -/
def jsonP : Nat → JTask → List Char → Except Unit (Json × List Char)
  | 0, _, _ => .error ()
  | fuel + 1, .val, cs0 =>
    match cs0.dropWhile isJsonWs with
    | 'n' :: 'u' :: 'l' :: 'l' :: r => .ok (.null, r)
    | 't' :: 'r' :: 'u' :: 'e' :: r => .ok (.bool true, r)
    | 'f' :: 'a' :: 'l' :: 's' :: 'e' :: r => .ok (.bool false, r)
    | '"' :: r =>
      (match jstrAux r with
        | .ok (cs, rest) => .ok (.str (String.mk cs), rest)
        | .error e => .error e)
    | '[' :: r =>
      (match r.dropWhile isJsonWs with
        | ']' :: r2 => .ok (.arr [], r2)
        | _ => jsonP fuel (.arrItems []) r)
    | '{' :: r =>
      (match r.dropWhile isJsonWs with
        | '}' :: r2 => .ok (.obj [], r2)
        | _ => jsonP fuel (.objItems []) r)
    | cs =>
      (match jnumAux cs with
        | .ok (me, rest) => .ok (.num me.1 me.2, rest)
        | .error e => .error e)
  | fuel + 1, .arrItems acc, cs0 =>
    (match jsonP fuel .val cs0 with
      | .error e => .error e
      | .ok (v, r) =>
        match r.dropWhile isJsonWs with
        | ',' :: r2 => jsonP fuel (.arrItems (acc ++ [v])) r2
        | ']' :: r2 => .ok (.arr (acc ++ [v]), r2)
        | _ => .error ())
  | fuel + 1, .objItems acc, cs0 =>
    (match cs0.dropWhile isJsonWs with
      | '"' :: r =>
        (match jstrAux r with
          | .error e => .error e
          | .ok (kcs, r1) =>
            match r1.dropWhile isJsonWs with
            | ':' :: r2 =>
              (match jsonP fuel .val r2 with
                | .error e => .error e
                | .ok (v, r3) =>
                  match r3.dropWhile isJsonWs with
                  | ',' :: r4 => jsonP fuel (.objItems (mapSet acc (String.mk kcs) v)) r4
                  | '}' :: r4 => .ok (.obj (mapSet acc (String.mk kcs) v), r4)
                  | _ => .error ())
            | _ => .error ())
      | _ => .error ())

/-- `JSON.parse(s)`: parse one value and require only whitespace after it. -/
def jsonParse (s : String) : Except Unit Json :=
  match jsonP (2 * s.length + 2) .val s.data with
  | .error e => .error e
  | .ok (v, rest) =>
    if rest.dropWhile isJsonWs = [] then .ok v else .error ()

/-- `true` iff `JSON.parse` would throw on this string. -/
def jsonParseFails (s : String) : Bool :=
  match jsonParse s with
  | .error _ => true
  | .ok _ => false

/-- After a fence marker, drop the optional `n` and the optional newline. -/
def fenceDropAux (l : List Char) : List Char :=
  let r2 := if l.head? = some 'n' then l.drop 1 else l
  if r2.head? = some '\n' then r2.drop 1 else r2

theorem drop_one_if_length_le (c : Prop) [Decidable c] (l : List Char) :
    (if c then l.drop 1 else l).length ≤ l.length := by
  split_ifs <;> simp

theorem fenceDropAux_length_le (l : List Char) :
    (fenceDropAux l).length ≤ l.length := by
  unfold fenceDropAux
  exact le_trans (drop_one_if_length_le _ _) (drop_one_if_length_le _ _)

/-- Removal of every `/```json?\n?/` occurrence (note the regex literally
requires `jso` with only the final `n` optional). -/
def removeFenceMarks : List Char → List Char
  | [] => []
  | c :: cs =>
    if (c :: cs).take 6 = "```jso".data then
      removeFenceMarks (fenceDropAux ((c :: cs).drop 6))
    else c :: removeFenceMarks cs
termination_by l => l.length
decreasing_by
  · rename_i h
    have h6 : 6 ≤ (c :: cs).length := by
      have hh := congrArg List.length h
      rw [List.length_take] at hh
      have hrhs : ("```jso".data).length = 6 := rfl
      omega
    have hle := fenceDropAux_length_le ((c :: cs).drop 6)
    simp only [List.length_drop, List.length_cons] at hle h6 ⊢
    omega
  · simp

def isPre [DecidableEq α] : List α → List α → Bool
  | [], _ => true
  | _ :: _, [] => false
  | a :: as, b :: bs => a = b && isPre as bs

def hasSub [DecidableEq α] (needle : List α) : List α → Bool
  | [] => isPre needle []
  | c :: cs => isPre needle (c :: cs) || hasSub needle cs

/-- Character-list `trim`/`startsWith`/`endsWith`/`dropRight` (the core
`String` versions go through `Substring` byte positions, which the kernel
cannot evaluate; these are extensionally the same on the strings involved). -/
def jsTrim (s : String) : String :=
  String.mk
    (((s.data.dropWhile Char.isWhitespace).reverse.dropWhile
        Char.isWhitespace).reverse)

def strStarts (s pre : String) : Bool := isPre pre.data s.data

def strEnds (s suf : String) : Bool := isPre suf.data.reverse s.data.reverse

def strDropRight (s : String) (n : Nat) : String :=
  String.mk (s.data.take (s.data.length - n))

/-- The fence-stripping step applied to the trimmed response: remove the
`/```json?\n?/g` matches, then one trailing triple-backtick, then trim. -/
def stripCodeFence (s : String) : String :=
  if strStarts s "```" then
    let s1 := String.mk (removeFenceMarks s.data)
    let s2 := if strEnds s1 "```" then strDropRight s1 3 else s1
    jsTrim s2
  else s

inductive AISortMode where
  | naturalLanguageLinks
  | semanticClustering
  | fuzzyMatching
deriving DecidableEq

structure AIPrompts where
  naturalLanguageLinks : String
  semanticClustering : String
  fuzzyMatching : String

structure AISortConfig where
  enabled : Bool
  mode : AISortMode
  prompts : AIPrompts
  fieldsToAnalyze : List String

/-- `String(v)` for a field value (`undefined` for an absent field). -/
def jsToStr (v : Option String) : String := v.getD "undefined"

def possibleKeyFields : List String :=
  ["Key", "key", "ID", "id", "Issue Key", "Issue ID", "Ticket ID", "Ticket Key"]

/-- `/key|id/i.test(f)`. -/
def fieldMatchesKeyId (f : String) : Bool :=
  hasSub "key".data f.toLower.data || hasSub "id".data f.toLower.data

/-- `findKeyField(results)`. -/
def findKeyField (results : List SortedCardResult) : String :=
  match results with
  | [] => "Key"
  | r :: _ =>
    let fields := r.row.map (fun p => p.1)
    match possibleKeyFields.find? (fun f => fields.contains f) with
    | some f => f
    | none =>
      match fields.find? fieldMatchesKeyId with
      | some f => f
      | none =>
        match fields.head? with
        | some f => if f = "" then "Key" else f
        | none => "Key"

/-- `detectRelationshipsLocally(results, fieldsToAnalyze, keyField)`. -/
def detectRelationshipsLocally (results : List SortedCardResult)
    (fieldsToAnalyze : List String) (keyField : String) :
    List (String × List String) :=
  let validIds := (results.map (fun r => jsToStr (getField r.row keyField))).filter
    (fun id => ¬ id = "" ∧ ¬ id = "undefined")
  results.foldl (fun lm r =>
    let ticketId := jsToStr (getField r.row keyField)
    if ticketId = "" ∨ ticketId = "undefined" then lm
    else
      let links := fieldsToAnalyze.foldl (fun links field =>
        let fieldValue := (getField r.row field).getD ""
        if fieldValue = "" then links
        else (ticketPatternMatches fieldValue).foldl (fun links m =>
          if m ∈ validIds ∧ ¬ m = ticketId ∧ ¬ m ∈ links
          then links ++ [m] else links) links) []
      if links = [] then lm else mapSet lm ticketId links) []

/-- Minimal JSON string escaping, used only to build classifier prompts. -/
def escapeJStr : List Char → List Char
  | [] => []
  | '"' :: cs => '\\' :: '"' :: escapeJStr cs
  | '\\' :: cs => '\\' :: '\\' :: escapeJStr cs
  | '\n' :: cs => '\\' :: 'n' :: escapeJStr cs
  | c :: cs => c :: escapeJStr cs

/-- `prepareTicketDataForAI`: the serialized record payload embedded in the
prompt.  (The classifier is modelled as an arbitrary function of the prompt
string, and no claim depends on the prompt's exact text, so pretty-printing
whitespace of `JSON.stringify` is not reproduced.) -/
def prepareTicketDataForAI (results : List SortedCardResult)
    (fieldsToAnalyze : List String) (keyField : String) : String :=
  let renderField := fun (name : String) (v : Option String) =>
    String.mk (escapeJStr name.data) ++ ":" ++
      (match v with
        | some s => "\"" ++ String.mk (escapeJStr s.data) ++ "\""
        | none => "null")
  let rows := results.enum.map (fun p =>
    "\x7b\"index\":" ++ toString p.1 ++ ","
      ++ renderField keyField (getField p.2.row keyField)
      ++ String.join ((fieldsToAnalyze.filter (fun f => ¬ f = keyField)).map
          (fun f => "," ++ renderField f (getField p.2.row f)))
      ++ "\x7d")
  "[" ++ String.intercalate "," rows ++ "]"

/-- The relationship-mode prompt handed to the classifier. -/
def nlPrompt (config : AISortConfig) (results : List SortedCardResult)
    (keyField : String) : String :=
  config.prompts.naturalLanguageLinks ++ "\n" ++ keyField ++ "\n"
    ++ prepareTicketDataForAI results config.fieldsToAnalyze keyField

def scPrompt (config : AISortConfig) (results : List SortedCardResult)
    (keyField : String) : String :=
  config.prompts.semanticClustering ++ "\n" ++ keyField ++ "\n"
    ++ prepareTicketDataForAI results config.fieldsToAnalyze keyField

def fzPrompt (config : AISortConfig) (results : List SortedCardResult)
    (keyField : String) : String :=
  config.prompts.fuzzyMatching ++ "\n" ++ keyField ++ "\n"
    ++ prepareTicketDataForAI results config.fieldsToAnalyze keyField

def jGet (j : Json) (k : String) : Option Json :=
  match j with
  | .obj fs => mapGet fs k
  | _ => none

/-- `rel.confidence >= 0.5` (only numeric confidences compare true; absent
or non-numeric confidence is `NaN`-like and fails the threshold, as in JS
for `undefined`; boolean/string coercions never arise in the claims). -/
def relConfOk (rel : Json) : Bool :=
  match jGet rel "confidence" with
  | some (.num m e) => decide (2 * m ≥ pow10 e)
  | _ => false

/-- Build the link map from the parsed relationship array: skip entries
with falsy `from`/`to` (only string identifiers can ever match the
string-keyed graph), keep confidence ≥ 0.5, append `to` to `from`'s list. -/
def buildLinkMap (rels : List Json) : List (String × List String) :=
  rels.foldl (fun lm rel =>
    match jGet rel "from", jGet rel "to" with
    | some (.str f), some (.str t) =>
      if f = "" ∨ t = "" then lm
      else if relConfOk rel then
        match mapGet lm f with
        | none => lm ++ [(f, [t])]
        | some ts => mapSet lm f (ts ++ [t])
      else lm
    | _, _ => lm) []

/-- `applyNaturalLanguageLinks`, in the exception monad.  Its `catch` block
logs the out-of-scope `response` binding and therefore itself throws a
`ReferenceError`, which propagates to `applyAISorting`'s outer catch — so a
classifier exception or a `JSON.parse` failure surfaces as `.error`. -/
def applyNaturalLanguageLinksE (results : List SortedCardResult)
    (config : AISortConfig) (keyField : String)
    (classifier : String → Except Unit String) :
    Except Unit (List (String × List String)) :=
  match classifier (nlPrompt config results keyField) with
  | .error _ => .error ()
  | .ok response =>
    let jsonStr := stripCodeFence (jsTrim response)
    if jsonStr = "" ∨ jsonStr = "[]" then
      .ok (detectRelationshipsLocally results config.fieldsToAnalyze keyField)
    else
      match jsonParse jsonStr with
      | .error _ => .error ()
      | .ok (.arr rels) => .ok (buildLinkMap rels)
      | .ok _ => .ok []

/-- `String(result.row[keyField] || \`ticket-${index}\`)`. -/
def ticketKeyOf (keyField : String) (idx : Nat) (r : SortedCardResult) : String :=
  match getField r.row keyField with
  | some s => if s = "" then "ticket-" ++ toString idx else s
  | none => "ticket-" ++ toString idx

/-- Initialize the bidirectional graph with an empty neighbour set for
every record's ticket key. -/
def initRelGraph (results : List SortedCardResult) (keyField : String) :
    List (String × List String) :=
  results.enum.foldl (fun g p =>
    let key := ticketKeyOf keyField p.1 p.2
    if (mapGet g key).isSome then g else g ++ [(key, [])]) []

def setAdd (l : List String) (x : String) : List String :=
  if x ∈ l then l else l ++ [x]

/-- Add every link-map edge in both directions (`graph.get(from)?.add(to)`;
reverse edge only when `to` is a graph key). -/
def addEdges (g0 : List (String × List String))
    (linkMap : List (String × List String)) : List (String × List String) :=
  linkMap.foldl (fun g p =>
    p.2.foldl (fun g t =>
      let g1 :=
        match mapGet g p.1 with
        | some ns => mapSet g p.1 (setAdd ns t)
        | none => g
      match mapGet g1 t with
      | some ns => mapSet g1 t (setAdd ns p.1)
      | none => g1) g) g0

structure RelState where
  visited : List String
  group : List String

/-- The connected-component DFS of the relationship branch: push the key
first, then visit unvisited neighbours (a key with no graph entry is a
leaf). -/
def relDfs (g : List (String × List String)) :
    Nat → String → RelState → RelState
  | 0, _, st => st
  | fuel + 1, key, st =>
    if key ∈ st.visited then st
    else
      let st1 : RelState := ⟨key :: st.visited, st.group ++ [key]⟩
      match mapGet g key with
      | none => st1
      | some ns =>
        ns.foldl (fun s n => if n ∈ s.visited then s else relDfs g fuel n s) st1

structure RelGroupsState where
  visited : List String
  groups : List (List String)

/-- Run the component DFS from every record's key, collecting non-empty
groups. -/
def relGroups (results : List SortedCardResult) (keyField : String)
    (g : List (String × List String)) : RelGroupsState :=
  results.enum.foldl (fun st p =>
    let key := ticketKeyOf keyField p.1 p.2
    if key ∈ st.visited then st
    else
      let t := relDfs g (g.length + 1) key ⟨st.visited, []⟩
      if t.group.isEmpty then { st with visited := t.visited }
      else ⟨t.visited, st.groups ++ [t.group]⟩) ⟨[], []⟩

/-- `ticketToGroup`: member key ↦ `link-group-<i>`. -/
def ticketToGroup (groups : List (List String)) : List (String × String) :=
  groups.enum.foldl (fun m p =>
    p.2.foldl (fun m key =>
      mapSet m key ("link-group-" ++ toString p.1)) m) []

/-- Annotate each record with its synthetic group id and the group's size
(`groups.find(...)?.length || 1`). -/
def annotateRel (results : List SortedCardResult) (keyField : String)
    (groups : List (List String)) : List SortedCardResult :=
  let t2g := ticketToGroup groups
  results.enum.map (fun p =>
    let key := ticketKeyOf keyField p.1 p.2
    match mapGet t2g key with
    | none => p.2
    | some gid =>
      let size :=
        match groups.find? (fun g => mapGet t2g key = mapGet t2g (g.headD "")) with
        | some g => if g.length = 0 then 1 else g.length
        | none => 1
      { p.2 with aiGroupId := some gid, groupSize := some size })

/-- `a.aiGroupId || sentinel`. -/
def aiGidOr (sentinel : String) (a : SortedCardResult) : String :=
  match a.aiGroupId with
  | some s => if s = "" then sentinel else s
  | none => sentinel

def relSortCmp (a b : SortedCardResult) : Ordering :=
  basicCmp (aiGidOr "zzz-ungrouped" a) (aiGidOr "zzz-ungrouped" b)

/-- The whole relationship branch after the link map is known. -/
def aiRelationshipApply (results : List SortedCardResult) (keyField : String)
    (linkMap : List (String × List String)) : List SortedCardResult :=
  let g := addEdges (initRelGraph results keyField) linkMap
  let groups := (relGroups results keyField g).groups
  sortCmp relSortCmp (annotateRel results keyField groups)

/-- `applySemanticClustering`: its catch returns an empty map, so classifier
or parse failures degrade to no clusters.  Only string cluster names are
kept (a non-string value would make the later sort throw into the outer
catch; no claim exercises that corner). -/
def applySemanticClusteringE (results : List SortedCardResult)
    (config : AISortConfig) (keyField : String)
    (classifier : String → Except Unit String) :
    Except Unit (List (String × String)) :=
  match classifier (scPrompt config results keyField) with
  | .error _ => .ok []
  | .ok response =>
    match jsonParse response with
    | .error _ => .ok []
    | .ok (.obj fs) =>
      .ok (fs.filterMap (fun p =>
        match p.2 with
        | .str s => some (p.1, s)
        | _ => none))
    | .ok _ => .ok []

def semSortCmp (a b : SortedCardResult) : Ordering :=
  basicCmp (aiGidOr "zzz-unclustered" a) (aiGidOr "zzz-unclustered" b)

def aiSemanticApply (results : List SortedCardResult) (keyField : String)
    (clusterMap : List (String × String)) : List SortedCardResult :=
  let annotated := results.enum.map (fun p =>
    let key := ticketKeyOf keyField p.1 p.2
    match mapGet clusterMap key with
    | some c => { p.2 with aiGroupId := some c }
    | none => p.2)
  sortCmp semSortCmp annotated

/-- `applyFuzzyMatching`: same degrade-to-empty-map error handling. -/
def applyFuzzyMatchingE (results : List SortedCardResult)
    (config : AISortConfig) (keyField : String)
    (classifier : String → Except Unit String) :
    Except Unit (List (String × String)) :=
  match classifier (fzPrompt config results keyField) with
  | .error _ => .ok []
  | .ok response =>
    match jsonParse response with
    | .error _ => .ok []
    | .ok (.obj fs) =>
      .ok (fs.filterMap (fun p =>
        match p.2 with
        | .str s => some (p.1, s)
        | _ => none))
    | .ok _ => .ok []

/-- Fuzzy mode annotates matched records with the fixed similarity sentinel
and does not reorder. -/
def aiFuzzyApply (results : List SortedCardResult) (keyField : String)
    (fuzzyMap : List (String × String)) : List SortedCardResult :=
  results.enum.map (fun p =>
    let key := ticketKeyOf keyField p.1 p.2
    if (mapGet fuzzyMap key).isSome then { p.2 with aiSimilarity := some 1 }
    else p.2)

/-- `applyAISorting(results, config, aiProvider)` in the exception monad:
skip when disabled or providerless, dispatch on mode, and catch any
exception by returning the original results. -/
def applyAISortingE (results : List SortedCardResult) (config : AISortConfig)
    (hasProvider : Bool) (classifier : String → Except Unit String) :
    Except Unit (List SortedCardResult) :=
  if ¬ (config.enabled ∧ hasProvider) then .ok results
  else
    let keyField := findKeyField results
    let body : Except Unit (List SortedCardResult) :=
      match config.mode with
      | .naturalLanguageLinks =>
        match applyNaturalLanguageLinksE results config keyField classifier with
        | .error e => .error e
        | .ok linkMap => .ok (aiRelationshipApply results keyField linkMap)
      | .semanticClustering =>
        match applySemanticClusteringE results config keyField classifier with
        | .error e => .error e
        | .ok cmap => .ok (aiSemanticApply results keyField cmap)
      | .fuzzyMatching =>
        match applyFuzzyMatchingE results config keyField classifier with
        | .error e => .error e
        | .ok fmap => .ok (aiFuzzyApply results keyField fmap)
    match body with
    | .ok out => .ok out
    | .error _ => .ok results

/-- The list `applyAISorting` actually delivers (the exception layer always
resolves — see `claim4_error_handling`). -/
def applyAISortingRun (results : List SortedCardResult) (config : AISortConfig)
    (hasProvider : Bool) (classifier : String → Except Unit String) :
    List SortedCardResult :=
  match applyAISortingE results config hasProvider classifier with
  | .ok out => out
  | .error _ => results

/-! ### Frame lemmas for the AI layer -/

/-- The identifying fields the AI layer must never touch: row,
`originalIndex` and the deterministic `groupId`. -/
def payload3 (r : SortedCardResult) : TicketRow × Nat × Option String :=
  (r.row, r.originalIndex, r.groupId)

theorem enum_map_snd_eq (results : List SortedCardResult) :
    results.enum.map (fun p => p.2) = results := by
  have h : (fun p : Nat × SortedCardResult => p.2) = Prod.snd := rfl
  rw [h, List.enum_map_snd]

theorem map_comp_congr {l : List α} {G : α → γ} {f : γ → β} {g : α → β}
    (h : ∀ a ∈ l, f (G a) = g a) : (l.map G).map f = l.map g := by
  rw [List.map_map]
  exact List.map_congr_left h

theorem enum_map_snd_comp (results : List SortedCardResult)
    (f : SortedCardResult → β) :
    results.enum.map (fun p => f p.2) = results.map f := by
  conv_rhs => rw [← enum_map_snd_eq results]
  rw [List.map_map]
  rfl

theorem enum_update_map (results : List SortedCardResult)
    (G : Nat × SortedCardResult → SortedCardResult)
    (f : SortedCardResult → β)
    (h : ∀ p ∈ results.enum, f (G p) = f p.2) :
    (results.enum.map G).map f = results.map f := by
  have h1 : (results.enum.map G).map f = results.enum.map (fun p => f p.2) :=
    map_comp_congr h
  rw [h1, enum_map_snd_comp]

theorem annotateRel_map (results : List SortedCardResult) (keyField : String)
    (groups : List (List String)) (f : SortedCardResult → β)
    (hf : ∀ r gid size,
      f { r with aiGroupId := some gid, groupSize := some size } = f r) :
    (annotateRel results keyField groups).map f = results.map f := by
  unfold annotateRel
  refine enum_update_map results _ f ?_
  intro p _
  dsimp only
  rcases hm : mapGet (ticketToGroup groups) (ticketKeyOf keyField p.1 p.2)
    with _ | gid
  · rfl
  · exact hf p.2 gid _

theorem aiFuzzyApply_map (results : List SortedCardResult) (keyField : String)
    (fuzzyMap : List (String × String)) (f : SortedCardResult → β)
    (hf : ∀ r, f { r with aiSimilarity := some 1 } = f r) :
    (aiFuzzyApply results keyField fuzzyMap).map f = results.map f := by
  unfold aiFuzzyApply
  refine enum_update_map results _ f ?_
  intro p _
  dsimp only
  split_ifs
  · exact hf p.2
  · rfl

theorem aiRelationshipApply_payload3_perm (results : List SortedCardResult)
    (keyField : String) (linkMap : List (String × List String)) :
    ((aiRelationshipApply results keyField linkMap).map payload3).Perm
      (results.map payload3) := by
  unfold aiRelationshipApply
  refine ((sortCmp_perm _ _).map payload3).trans ?_
  rw [annotateRel_map results keyField _ payload3 (fun _ _ _ => rfl)]

theorem aiRelationshipApply_payload_perm (results : List SortedCardResult)
    (keyField : String) (linkMap : List (String × List String)) :
    ((aiRelationshipApply results keyField linkMap).map payload).Perm
      (results.map payload) := by
  unfold aiRelationshipApply
  refine ((sortCmp_perm _ _).map payload).trans ?_
  rw [annotateRel_map results keyField _ payload (fun _ _ _ => rfl)]

theorem aiSemanticApply_payload3_perm (results : List SortedCardResult)
    (keyField : String) (clusterMap : List (String × String)) :
    ((aiSemanticApply results keyField clusterMap).map payload3).Perm
      (results.map payload3) := by
  unfold aiSemanticApply
  refine ((sortCmp_perm _ _).map payload3).trans ?_
  rw [enum_update_map results _ payload3 ?_]
  intro p _
  dsimp only
  rcases hm : mapGet clusterMap (ticketKeyOf keyField p.1 p.2) with _ | c
  · rfl
  · rfl

theorem basicCmp_refl (s : String) : basicCmp s s = .eq :=
  cmpList_eq_iff.mpr rfl

theorem aiSemanticApply_empty (results : List SortedCardResult)
    (keyField : String) (hclean : ∀ r ∈ results, r.aiGroupId = none) :
    aiSemanticApply results keyField [] = results := by
  unfold aiSemanticApply
  have hann := enum_update_map results
    (fun p =>
      match mapGet ([] : List (String × String))
        (ticketKeyOf keyField p.1 p.2) with
      | some c => { p.2 with aiGroupId := some c }
      | none => p.2) id (fun _ _ => rfl)
  simp only [List.map_id] at hann
  rw [hann]
  refine sortCmp_eq_self _ results ?_
  intro a ha b hb
  unfold semSortCmp aiGidOr
  rw [hclean a ha, hclean b hb]
  exact basicCmp_refl _

theorem aiFuzzyApply_empty (results : List SortedCardResult)
    (keyField : String) : aiFuzzyApply results keyField [] = results := by
  unfold aiFuzzyApply
  have h := enum_update_map results
    (fun p =>
      if (mapGet ([] : List (String × String))
          (ticketKeyOf keyField p.1 p.2)).isSome
      then { p.2 with aiSimilarity := some 1 } else p.2) id (fun _ _ => rfl)
  simpa using h

theorem applyAISortingE_isOk (results : List SortedCardResult)
    (config : AISortConfig) (hasProvider : Bool)
    (classifier : String → Except Unit String) :
    ∃ out, applyAISortingE results config hasProvider classifier = .ok out := by
  unfold applyAISortingE
  split_ifs with h
  case neg =>
    exact ⟨results, rfl⟩
  case pos =>
    simp only []
    rcases config.mode
    · rcases hE : applyNaturalLanguageLinksE results config
        (findKeyField results) classifier with e | lm
      · simp only [hE]
        exact ⟨results, rfl⟩
      · simp only [hE]
        exact ⟨_, rfl⟩
    · rcases hE : applySemanticClusteringE results config
        (findKeyField results) classifier with e | cm
      · simp only [hE]
        exact ⟨results, rfl⟩
      · simp only [hE]
        exact ⟨_, rfl⟩
    · rcases hE : applyFuzzyMatchingE results config
        (findKeyField results) classifier with e | fm
      · simp only [hE]
        exact ⟨results, rfl⟩
      · simp only [hE]
        exact ⟨_, rfl⟩

/-! ### Claim theorems for the AI merge layer -/

theorem applySortLinkedIssues_ai_none (results : List SortedCardResult)
    (config : LinkedIssueGroupConfig) :
    ∀ r ∈ applySortLinkedIssues results config,
      r.aiGroupId = none ∧ r.aiSimilarity = none := by
  intro r hr
  unfold applySortLinkedIssues at hr
  simp only [] at hr
  rcases List.mem_append.mp hr with hr | hr
  · rcases List.mem_flatten.mp hr with ⟨g, hg, hrg⟩
    obtain ⟨_, _, _, hshape⟩ := allGroups_inv results config
    obtain ⟨raw, _, hraw, hclean⟩ := hshape g hg
    subst hraw
    unfold finishGroup at hrg
    rcases hm : config.sortWithinGroups with _ | swg
    · simp only [hm] at hrg
      rcases List.mem_map.mp hrg with ⟨x, hx, hxr⟩
      rw [← hxr]
      exact ⟨(hclean x hx).1, (hclean x hx).2⟩
    · simp only [hm] at hrg
      have hmem := (sortCmp_perm _ _).mem_iff.mp hrg
      rcases List.mem_map.mp hmem with ⟨x, hx, hxr⟩
      rw [← hxr]
      exact ⟨(hclean x hx).1, (hclean x hx).2⟩
  · have hr' := (sortCmp_perm _ _).mem_iff.mp hr
    rcases List.mem_append.mp hr' with hr' | hr'
    · unfold graphOrphans at hr'
      rcases List.mem_map.mp hr' with ⟨pz, _, hpz⟩
      rw [← hpz]
      exact ⟨rfl, rfl⟩
    · unfold noKeyOrphans at hr'
      rcases List.mem_map.mp hr' with ⟨x, _, hx⟩
      rw [← hx]
      exact ⟨rfl, rfl⟩

theorem foldl_applyRule_ai_none :
    ∀ (rules : List SortRuleSpec) (results : List SortedCardResult),
      (∀ r ∈ results, r.aiGroupId = none ∧ r.aiSimilarity = none) →
      ∀ r ∈ rules.foldl applyRule results,
        r.aiGroupId = none ∧ r.aiSimilarity = none
  | [], _, h => h
  | rule :: rest, results, h => by
    rw [List.foldl_cons]
    refine foldl_applyRule_ai_none rest _ ?_
    rcases rule with c | c | _
    · intro r hr
      exact h r ((sortCmp_perm _ _).mem_iff.mp hr)
    · exact applySortLinkedIssues_ai_none results c
    · exact h

theorem applySorting_ai_none (rows : List TicketRow) (config : SortConfig) :
    ∀ r ∈ applySorting rows config,
      r.aiGroupId = none ∧ r.aiSimilarity = none := by
  have hinit : ∀ r ∈ initialResults rows,
      r.aiGroupId = none ∧ r.aiSimilarity = none := by
    intro r hr
    rcases List.mem_map.mp hr with ⟨p, _, hp⟩
    rw [← hp]
    exact ⟨rfl, rfl⟩
  unfold applySorting
  split_ifs with h1 h2
  · intro r hr
    simp at hr
  · exact hinit
  · exact foldl_applyRule_ai_none config.rules (initialResults rows) hinit

theorem applyAISortingRun_payload3_perm (results : List SortedCardResult)
    (config : AISortConfig) (hasProvider : Bool)
    (classifier : String → Except Unit String) :
    ((applyAISortingRun results config hasProvider classifier).map
      payload3).Perm (results.map payload3) := by
  unfold applyAISortingRun applyAISortingE
  split_ifs with h
  case neg => exact List.Perm.refl _
  case pos =>
    simp only []
    rcases config.mode
    · rcases hE : applyNaturalLanguageLinksE results config
        (findKeyField results) classifier with e | lm
      · simp only [hE]
        exact List.Perm.refl _
      · simp only [hE]
        exact aiRelationshipApply_payload3_perm results _ lm
    · rcases hE : applySemanticClusteringE results config
        (findKeyField results) classifier with e | cm
      · simp only [hE]
        exact List.Perm.refl _
      · simp only [hE]
        exact aiSemanticApply_payload3_perm results _ cm
    · rcases hE : applyFuzzyMatchingE results config
        (findKeyField results) classifier with e | fm
      · simp only [hE]
        exact List.Perm.refl _
      · simp only [hE]
        rw [aiFuzzyApply_map results _ fm payload3 (fun _ => rfl)]

def rowAI1 : TicketRow := [("Key", "SBT-1"), ("Summary", "hello")]
def resAI1 : SortedCardResult := { row := rowAI1, originalIndex := 0 }

/-- A relationship-mode AI configuration. -/
def aiCfgRel : AISortConfig :=
  { enabled := true, mode := .naturalLanguageLinks
    prompts := ⟨"p1", "p2", "p3"⟩, fieldsToAnalyze := ["Summary"] }

def clfThrow : String → Except Unit String := fun _ => .error ()

/-- C8 counterexample: the AI merge layer writes `groupSize`.  On a single
clean record in relationship mode (empty classifier answer, empty local
fallback), the output record carries `groupSize = 1` where the input had
none — so `groupSize` is not set only by the deterministic engine. -/
theorem claim8_counterexample :
    applyAISortingE [resAI1] aiCfgRel true (fun _ => .ok "[]")
      = .ok [{ row := rowAI1, originalIndex := 0, groupSize := some 1,
               aiGroupId := some "link-group-0" }]
    ∧ resAI1.groupSize = none := by
  constructor
  · decide
  · rfl

/-- C8 amended: the deterministic pipeline never writes `aiGroupId` or
`aiSimilarityScore`, and the AI merge layer never writes `groupId` (nor
touches `record`/`originalIndex`) — but the AI layer does additionally
write `groupSize` in relationship mode (see the counterexample), so only
`groupId` and the ai-fields are exclusive to one layer each. -/
theorem claim8_layer_separation :
    (∀ (rows : List TicketRow) (config : SortConfig),
      ∀ r ∈ applySorting rows config,
        r.aiGroupId = none ∧ r.aiSimilarity = none)
    ∧ (∀ (results : List SortedCardResult) (config : AISortConfig)
        (hasProvider : Bool) (classifier : String → Except Unit String),
        ((applyAISortingRun results config hasProvider classifier).map
          payload3).Perm (results.map payload3)) :=
  ⟨applySorting_ai_none, applyAISortingRun_payload3_perm⟩

theorem applyNaturalLanguageLinksE_empty_arr (results : List SortedCardResult)
    (config : AISortConfig) (kf : String) :
    applyNaturalLanguageLinksE results config kf (fun _ => .ok "[]")
      = .ok (detectRelationshipsLocally results config.fieldsToAnalyze kf) := by
  unfold applyNaturalLanguageLinksE
  have hstr : stripCodeFence (jsTrim "[]") = "[]" := by decide
  simp [hstr]

/-- C3 counterexample: with a single record, the classifier answering `[]`
and the local fallback finding no links, the output is NOT the unchanged
base results — the relationship branch still annotates every ticket with
an `aiGroupId` and a `groupSize` and re-sorts by group. -/
theorem claim3_counterexample :
    detectRelationshipsLocally [resAI1] aiCfgRel.fieldsToAnalyze
      (findKeyField [resAI1]) = []
    ∧ ¬ applyAISortingE [resAI1] aiCfgRel true (fun _ => .ok "[]")
        = .ok [resAI1] := by
  constructor
  · decide
  · decide

/-- C3 amended: if the classifier returns the empty array in relationship
mode, `applyAISorting` output exactly equals applying the relationship
annotation to the link map produced by the local pattern-detection
fallback over the same input (no records dropped or duplicated: the
(record, originalIndex, groupId) payloads are a permutation) — but even
when the local fallback finds no links the output is not `baseResults`
unchanged, since every record still gets annotated and re-sorted. -/
theorem claim3_fallback :
    (∀ (results : List SortedCardResult) (config : AISortConfig),
      config.enabled = true → config.mode = .naturalLanguageLinks →
      applyAISortingE results config true (fun _ => .ok "[]")
        = .ok (aiRelationshipApply results (findKeyField results)
            (detectRelationshipsLocally results config.fieldsToAnalyze
              (findKeyField results))))
    ∧ (∀ (results : List SortedCardResult) (kf : String)
        (lm : List (String × List String)),
        ((aiRelationshipApply results kf lm).map payload3).Perm
          (results.map payload3)) := by
  constructor
  · intro results config hen hmode
    unfold applyAISortingE
    split_ifs with h
    case neg => exact absurd ⟨hen, rfl⟩ h
    case pos =>
      simp only [hmode]
      rw [applyNaturalLanguageLinksE_empty_arr]
  · exact aiRelationshipApply_payload3_perm

/-- Witness for C3: the fallback equality at a concrete one-record input
with the relationship-mode configuration. -/
theorem claim3_fallback_witness :
    aiCfgRel.enabled = true ∧ aiCfgRel.mode = .naturalLanguageLinks
    ∧ applyAISortingE [resAI1] aiCfgRel true (fun _ => .ok "[]")
        = .ok (aiRelationshipApply [resAI1] (findKeyField [resAI1])
            (detectRelationshipsLocally [resAI1] aiCfgRel.fieldsToAnalyze
              (findKeyField [resAI1]))) :=
  ⟨rfl, rfl, claim3_fallback.1 [resAI1] aiCfgRel rfl rfl⟩

/-- C4 counterexample: a wrong-shape classifier answer (a JSON object
where an array of links is expected) does NOT make `applyAISorting`
return the unmodified base results: the code only checks
`Array.isArray` and otherwise proceeds with an empty link map, which
still annotates and re-sorts every record. -/
theorem claim4_counterexample :
    applyAISortingE [resAI1] aiCfgRel true (fun _ => .ok "{}")
      = .ok [{ row := rowAI1, originalIndex := 0, groupSize := some 1,
               aiGroupId := some "link-group-0" }]
    ∧ ¬ applyAISortingE [resAI1] aiCfgRel true (fun _ => .ok "{}")
        = .ok [resAI1] := by
  constructor
  · decide
  · decide

/-- C4 amended: `applyAISorting` never propagates an exception (it always
resolves with a result list); if the classifier throws, or returns a
response whose JSON parse fails (for relationship mode: after trimming
and code-fence stripping, and not the empty/`[]` local-fallback cases),
the unmodified base results are returned — but a *wrong-shape* (yet
parsable) response is NOT rolled back (see the counterexample): the
relationship branch proceeds with an empty link map and re-annotates. -/
theorem claim4_error_handling :
    (∀ (results : List SortedCardResult) (config : AISortConfig)
        (hasProvider : Bool) (classifier : String → Except Unit String),
      applyAISortingE results config hasProvider classifier
        = .ok (applyAISortingRun results config hasProvider classifier))
    ∧ (∀ (results : List SortedCardResult) (config : AISortConfig)
        (hasProvider : Bool) (classifier : String → Except Unit String),
        (∀ s, classifier s = .error ()) →
        (∀ r ∈ results, r.aiGroupId = none) →
        applyAISortingE results config hasProvider classifier = .ok results)
    ∧ (∀ (results : List SortedCardResult) (config : AISortConfig)
        (hasProvider : Bool) (resp : String),
        (config.mode = .naturalLanguageLinks →
          ¬ stripCodeFence (jsTrim resp) = ""
          ∧ ¬ stripCodeFence (jsTrim resp) = "[]"
          ∧ jsonParseFails (stripCodeFence (jsTrim resp)) = true) →
        (¬ config.mode = .naturalLanguageLinks →
          jsonParseFails resp = true) →
        (∀ r ∈ results, r.aiGroupId = none) →
        applyAISortingE results config hasProvider (fun _ => .ok resp)
          = .ok results) := by
  refine ⟨?_, ?_, ?_⟩
  · intro results config hp clf
    obtain ⟨o, ho⟩ := applyAISortingE_isOk results config hp clf
    unfold applyAISortingRun
    rw [ho]
  · intro results config hp clf hclf hclean
    unfold applyAISortingE
    split_ifs with h
    case neg => rfl
    case pos =>
      simp only []
      rcases config.mode
      · have hE : applyNaturalLanguageLinksE results config
            (findKeyField results) clf = .error () := by
          unfold applyNaturalLanguageLinksE
          rw [hclf]
        simp only [hE]
      · have hE : applySemanticClusteringE results config
            (findKeyField results) clf = .ok [] := by
          unfold applySemanticClusteringE
          rw [hclf]
        simp only [hE]
        rw [aiSemanticApply_empty results _ hclean]
      · have hE : applyFuzzyMatchingE results config
            (findKeyField results) clf = .ok [] := by
          unfold applyFuzzyMatchingE
          rw [hclf]
        simp only [hE]
        rw [aiFuzzyApply_empty]
  · intro results config hp resp h1 h2 hclean
    unfold applyAISortingE
    split_ifs with h
    case neg => rfl
    case pos =>
      simp only []
      rcases hm : config.mode
      · obtain ⟨hne1, hne2, hfail⟩ := h1 hm
        have hE : applyNaturalLanguageLinksE results config
            (findKeyField results) (fun _ => .ok resp) = .error () := by
          unfold applyNaturalLanguageLinksE
          rcases hJ : jsonParse (stripCodeFence (jsTrim resp)) with ⟨⟩ | v
          · simp [hne1, hne2, hJ]
          · exfalso
            unfold jsonParseFails at hfail
            rw [hJ] at hfail
            exact Bool.noConfusion hfail
        simp only [hE]
      · have hfail : jsonParseFails resp = true := h2 (by rw [hm]; simp)
        have hE : applySemanticClusteringE results config
            (findKeyField results) (fun _ => .ok resp) = .ok [] := by
          unfold applySemanticClusteringE
          rcases hJ : jsonParse resp with ⟨⟩ | v
          · simp [hJ]
          · exfalso
            unfold jsonParseFails at hfail
            rw [hJ] at hfail
            exact Bool.noConfusion hfail
        simp only [hE]
        rw [aiSemanticApply_empty results _ hclean]
      · have hfail : jsonParseFails resp = true := h2 (by rw [hm]; simp)
        have hE : applyFuzzyMatchingE results config
            (findKeyField results) (fun _ => .ok resp) = .ok [] := by
          unfold applyFuzzyMatchingE
          rcases hJ : jsonParse resp with ⟨⟩ | v
          · simp [hJ]
          · exfalso
            unfold jsonParseFails at hfail
            rw [hJ] at hfail
            exact Bool.noConfusion hfail
        simp only [hE]
        rw [aiFuzzyApply_empty]

/-- Witness for C4: a throwing classifier and an unparsable response
(`oops`) both leave a concrete one-record input unchanged. -/
theorem claim4_error_handling_witness :
    ((∀ s, clfThrow s = Except.error ())
      ∧ (∀ r ∈ [resAI1], r.aiGroupId = none)
      ∧ applyAISortingE [resAI1] aiCfgRel true clfThrow = .ok [resAI1])
    ∧ ((aiCfgRel.mode = .naturalLanguageLinks →
          ¬ stripCodeFence (jsTrim "oops") = ""
          ∧ ¬ stripCodeFence (jsTrim "oops") = "[]"
          ∧ jsonParseFails (stripCodeFence (jsTrim "oops")) = true)
      ∧ (¬ aiCfgRel.mode = .naturalLanguageLinks →
          jsonParseFails "oops" = true)
      ∧ applyAISortingE [resAI1] aiCfgRel true (fun _ => .ok "oops")
          = .ok [resAI1]) := by
  refine ⟨⟨fun _ => rfl, by decide, ?_⟩, ?_, ?_, ?_⟩
  · exact claim4_error_handling.2.1 [resAI1] aiCfgRel true clfThrow
      (fun _ => rfl) (by decide)
  · intro _
    exact ⟨by decide, by decide, by decide⟩
  · intro hn
    exact absurd rfl hn
  · exact claim4_error_handling.2.2 [resAI1] aiCfgRel true "oops"
      (fun _ => ⟨by decide, by decide, by decide⟩)
      (fun hn => absurd rfl hn) (by decide)

/-- Witness for C8: the deterministic pipeline leaves the ai-fields empty
on a concrete one-row input. -/
theorem claim8_layer_separation_witness :
    resAI1 ∈ applySorting [rowAI1] { rules := [] }
    ∧ resAI1.aiGroupId = none ∧ resAI1.aiSimilarity = none := by
  have h := claim8_layer_separation.1 [rowAI1] { rules := [] } resAI1 (by decide)
  exact ⟨by decide, h.1, h.2⟩
